import Mathlib

/-
Verification of the serializable memory arena (Allocator) and the growable
value array (ResizableArray) of this repository.

The arena's backing ArrayBuffer/DataView is modelled as a byte store
`Mem : Nat → Nat` together with an explicit byte length; `DataView.getUint32`
and `DataView.setUint32` (big-endian, the DataView default) are modelled by
`getUint32` / `setUint32`, with the 32-bit truncation `% 4294967296` that
`setUint32` performs made explicit.  DataView accesses are modelled as total
functions on the unbounded byte store; theorems carry the bounds hypotheses
under which the modelled program performs only in-range accesses.
Fallible operations (those that throw in the source) return `Except String`.
-/

/-- A byte store: the contents of the ArrayBuffer, one value per byte index. -/
abbrev Mem := Nat → Nat

/-- Write one byte. -/
def setByte (m : Mem) (i v : Nat) : Mem := fun j => if j = i then v else m j

/-- Model of DataView.setUint32 (big-endian): truncates the value to 32 bits
and stores its four bytes at off .. off+3. -/
def setUint32 (m : Mem) (off v : Nat) : Mem :=
  let w := v % 4294967296
  setByte (setByte (setByte (setByte m off (w / 16777216))
    (off + 1) (w / 65536 % 256)) (off + 2) (w / 256 % 256)) (off + 3) (w % 256)

/-- Model of DataView.getUint32 (big-endian): reads the four bytes at
off .. off+3 as one unsigned 32-bit value. -/
def getUint32 (m : Mem) (off : Nat) : Nat :=
  m off * 16777216 + m (off + 1) * 65536 + m (off + 2) * 256 + m (off + 3)

/-- All bytes of a store are in the byte range (true of every store the
program can build, since setUint32 only writes values below 256). -/
def ByteStore (m : Mem) : Prop := ∀ i, m i < 256

/-- MemoryBlockRef from the source: an immutable handle on a byte range. -/
structure MemoryBlockRef where
  offset : Nat
  size : Nat
deriving DecidableEq, Repr

/-- Disjointness of the byte ranges of two blocks. -/
def MemoryBlockRef.disjoint (b c : MemoryBlockRef) : Prop :=
  b.offset + b.size ≤ c.offset ∨ c.offset + c.size ≤ b.offset

instance (b c : MemoryBlockRef) : Decidable (b.disjoint c) := by
  unfold MemoryBlockRef.disjoint; infer_instance

/-- Membership of a byte address in a block's range. -/
def MemoryBlockRef.inRange (b : MemoryBlockRef) (x : Nat) : Prop :=
  b.offset ≤ x ∧ x < b.offset + b.size

instance (b : MemoryBlockRef) (x : Nat) : Decidable (b.inRange x) := by
  unfold MemoryBlockRef.inRange; infer_instance

/-- Some byte address lies inside some block of the list. -/
def covers (l : List MemoryBlockRef) (x : Nat) : Prop :=
  ∃ b ∈ l, b.inRange x

/-- The extraction loop of coalesceFreeBlocks: read the free-block table
entries at slots 0 .. count-1 (slot i occupies bytes 12+i*8 .. 12+i*8+7). -/
def readBlocks (m : Mem) (count : Nat) : List MemoryBlockRef :=
  (List.range count).map (fun i => ⟨getUint32 m (12 + i * 8), getUint32 m (12 + i * 8 + 4)⟩)

/-- The write-back loop of coalesceFreeBlocks: store the blocks into
consecutive table slots starting at slot i. -/
def writeBlocks : Mem → List MemoryBlockRef → Nat → Mem
  | m, [], _ => m
  | m, b :: rest, i =>
      writeBlocks (setUint32 (setUint32 m (12 + i * 8) b.offset) (12 + i * 8 + 4) b.size) rest (i + 1)

/-- Comparison used by the sort in coalesceFreeBlocks:
the JS comparator (a, b) => a.offset - b.offset orders by ascending offset. -/
def blockLE (x y : MemoryBlockRef) : Prop := x.offset ≤ y.offset

instance : DecidableRel blockLE := fun x y => by unfold blockLE; infer_instance

instance : IsTotal MemoryBlockRef blockLE :=
  ⟨fun a b => Nat.le_total a.offset b.offset⟩

instance : IsTrans MemoryBlockRef blockLE :=
  ⟨fun _ _ _ hab hbc => Nat.le_trans hab hbc⟩

/-- Model of freeBlocks.sort((a, b) => a.offset - b.offset): a stable sort by
ascending offset (insertion sort, which is stable like the JS sort). -/
def sortByOffset (bs : List MemoryBlockRef) : List MemoryBlockRef :=
  List.insertionSort blockLE bs

/-- The merge loop of coalesceFreeBlocks, with the accumulator's last entry
held in the first argument: a next block whose offset is at most the current
entry's end is absorbed by adding its size, otherwise the current entry is
emitted and the next block becomes current. -/
def mergeInto (b : MemoryBlockRef) : List MemoryBlockRef → List MemoryBlockRef
  | [] => [b]
  | c :: rest =>
      if b.offset + b.size < c.offset then b :: mergeInto c rest
      else mergeInto ⟨b.offset, b.size + c.size⟩ rest

/-- Merge adjacent (or overlapping) blocks of a sorted list, as the merge loop
of coalesceFreeBlocks does. -/
def mergeBlocks : List MemoryBlockRef → List MemoryBlockRef
  | [] => []
  | b :: rest => mergeInto b rest

/-- The in-memory state of one Allocator instance.  The Map of registered
structures is modelled by the association list structures (the structure
object references it stores are not part of the allocator's own state; the
ResizableArray model below keeps its own state separately). -/
structure Alloc where
  mem : Mem
  len : Nat
  maxFreeBlocks : Nat
  structures : List (Nat × Nat)
  nextId : Nat

/-- The Allocator constructor: allocate a zero-filled buffer of the initial
size and initialize the three header counters. -/
def Allocator.new (initialBufferSize : Nat) (maxFreeBlocks : Nat) : Alloc :=
  let mem0 : Mem := fun _ => 0
  let initialOffset := 12 + maxFreeBlocks * 8
  { mem := setUint32 (setUint32 (setUint32 mem0 0 initialOffset) 4 0) 8 0
    len := initialBufferSize
    maxFreeBlocks := maxFreeBlocks
    structures := []
    nextId := 0 }

/-- The free-list search loop of allocate, over the given slot indices
(the source iterates i = 0 .. freeBlockCount-1): returns the first slot
whose recorded size is at least the requested size, together with the
recorded offset and size. -/
def findFreeBlock (m : Mem) (size : Nat) : List Nat → Option (Nat × Nat × Nat)
  | [] => none
  | i :: rest =>
      let offset := 12 + i * 8
      let blockOffset := getUint32 m offset
      let blockSize := getUint32 m (offset + 4)
      if size ≤ blockSize then some (i, blockOffset, blockSize)
      else findFreeBlock m size rest

/-- removeFreeBlock from the source: decrement the count and move the last
live entry into the removed slot.  The source computes getUint32(4) - 1 as a
JS number; every call site calls it with count at least 1, where the Nat
subtraction used here agrees with the source. -/
def Alloc.removeFreeBlock (a : Alloc) (index : Nat) : Alloc :=
  let freeBlockCount := getUint32 a.mem 4 - 1
  let m := setUint32 a.mem 4 freeBlockCount
  let m2 :=
    if index < freeBlockCount then
      let lastOffset := 12 + freeBlockCount * 8
      let offset := 12 + index * 8
      let m3 := setUint32 m offset (getUint32 m lastOffset)
      setUint32 m3 (offset + 4) (getUint32 m3 (lastOffset + 4))
    else m
  { a with mem := m2 }

/-- coalesceFreeBlocks from the source: extract the live free-table entries,
sort them by ascending offset, merge adjacent or overlapping entries, write
the merged entries back over the table, and store the new count. -/
def Alloc.coalesceFreeBlocks (a : Alloc) : Alloc :=
  let freeBlockCount := getUint32 a.mem 4
  let freeBlocks := readBlocks a.mem freeBlockCount
  let mergedBlocks := mergeBlocks (sortByOffset freeBlocks)
  let m := writeBlocks a.mem mergedBlocks 0
  { a with mem := setUint32 m 4 mergedBlocks.length }

/-- The registry walk of restoreStructures, over the registry indices
0 .. structuresCount-1: read each recorded id, look it up in the in-memory
structures map, and fail if it is absent (the source dereferences the missing
Map entry, which throws).  Invoking struct.restore(offset) mutates the
registered structure object, not the allocator state modelled here. -/
def restoreLoop (a : Alloc) : List Nat → Except String Alloc
  | [] => .ok a
  | i :: rest =>
      let structOffset := 12 + a.maxFreeBlocks * 8 + i * 8
      let id := getUint32 a.mem structOffset
      let _offset := getUint32 a.mem (structOffset + 4)
      match a.structures.find? (fun p => p.fst == id) with
      | none => .error ("Structure with ID " ++ toString id ++ " not found")
      | some _ => restoreLoop a rest

/-- restoreStructures from the source. -/
def Alloc.restoreStructures (a : Alloc) : Except String Alloc :=
  restoreLoop a (List.range (getUint32 a.mem 8))

/-- expandBuffer from the source: double the backing byte length, copy the
existing bytes verbatim (the fresh ArrayBuffer is zero-filled beyond them),
then re-run the registry walk. -/
def Alloc.expandBuffer (a : Alloc) : Except String Alloc :=
  let newBufferSize := a.len * 2
  let m : Mem := fun i => if i < a.len then a.mem i else 0
  Alloc.restoreStructures { a with mem := m, len := newBufferSize }

/-- allocate from the source: first-fit search of the free list, splitting a
larger entry in place or swap-removing an exact fit; otherwise bump
allocation at the current offset, doubling the buffer once if the bump would
pass the end. -/
def Alloc.allocate (a : Alloc) (size : Nat) : Except String (MemoryBlockRef × Alloc) :=
  let freeBlockCount := getUint32 a.mem 4
  match findFreeBlock a.mem size (List.range freeBlockCount) with
  | some (i, blockOffset, blockSize) =>
      let offset := 12 + i * 8
      let remainingSize := blockSize - size
      if 0 < remainingSize then
        let m := setUint32 a.mem offset (blockOffset + size)
        let m2 := setUint32 m (offset + 4) remainingSize
        .ok (⟨blockOffset, size⟩, { a with mem := m2 })
      else
        .ok (⟨blockOffset, size⟩, a.removeFreeBlock i)
  | none => do
      let offset := getUint32 a.mem 0
      let (offset, a1) ←
        if a.len < offset + size then do
          let a1 ← a.expandBuffer
          Except.ok (getUint32 a1.mem 0, a1)
        else Except.ok (offset, a)
      Except.ok (⟨offset, size⟩, { a1 with mem := setUint32 a1.mem 0 (offset + size) })

/-- free from the source: reject when the free list is full (before any
mutation), otherwise append the block at the next slot, bump the count, and
coalesce. -/
def Alloc.free (a : Alloc) (block : MemoryBlockRef) : Except String Alloc :=
  let freeBlockCount := getUint32 a.mem 4
  if a.maxFreeBlocks ≤ freeBlockCount then .error "Free block list is full"
  else
    let offset := 12 + freeBlockCount * 8
    let m := setUint32 a.mem offset block.offset
    let m2 := setUint32 m (offset + 4) block.size
    let m3 := setUint32 m2 4 (freeBlockCount + 1)
    .ok (Alloc.coalesceFreeBlocks { a with mem := m3 })

/-- registerStructure from the source: assign the next id, capture the
current bump offset, record the pair both in the in-memory map and in the
on-buffer registry table, and bump the registry count.  The structure object
itself is not part of the allocator state modelled here. -/
def Alloc.registerStructure (a : Alloc) : Nat × Alloc :=
  let id := a.nextId
  let offset := getUint32 a.mem 0
  let structuresCount := getUint32 a.mem 8
  let structOffset := 12 + a.maxFreeBlocks * 8 + structuresCount * 8
  let m := setUint32 a.mem structOffset id
  let m2 := setUint32 m (structOffset + 4) offset
  let m3 := setUint32 m2 8 (structuresCount + 1)
  (id, { a with mem := m3, structures := a.structures ++ [(id, offset)], nextId := id + 1 })

/-- getStructureOffset from the source: look the id up in the in-memory map,
failing with not-found if it was never registered in this instance. -/
def Alloc.getStructureOffset (a : Alloc) (id : Nat) : Except String Nat :=
  match a.structures.find? (fun p => p.fst == id) with
  | none => .error ("Structure with ID " ++ toString id ++ " not found")
  | some p => .ok p.snd

/-- Allocator.fromBuffer from the source: construct a fresh allocator of the
buffer's byte length (with the default free-list capacity 100), replace its
buffer with a copy of the given bytes, and run the registry walk. -/
def Allocator.fromBuffer (mem : Mem) (len : Nat) : Except String Alloc :=
  let allocator := Allocator.new len 100
  Alloc.restoreStructures { allocator with mem := mem, len := len }

/-- The live free-block table: the entries at slots 0 .. count-1, where count
is the header's free-block counter.  This is exactly what the loops of
allocate and coalesceFreeBlocks traverse. -/
def Alloc.freeList (a : Alloc) : List MemoryBlockRef :=
  readBlocks a.mem (getUint32 a.mem 4)

/-- Byte-for-byte copy of n bytes from address src to address dst, as
Uint8Array.prototype.set performs in ResizableArray.resize. -/
def copyBytes (m : Mem) (src dst n : Nat) : Mem :=
  fun i => if dst ≤ i ∧ i < dst + n then m (src + (i - dst)) else m i

/-- The in-memory fields of one ResizableArray instance (the allocator it
holds a reference to is passed explicitly to each operation). -/
structure RArray where
  length : Nat
  capacity : Nat
  block : MemoryBlockRef
  __ID : Nat
deriving DecidableEq, Repr

/-- saveMetadata from the source: persist length and capacity into the first
8 bytes of the array's current block. -/
def RArray.saveMetadata (ra : RArray) (a : Alloc) : Alloc :=
  let m := setUint32 (setUint32 a.mem ra.block.offset ra.length) (ra.block.offset + 4) ra.capacity
  { a with mem := m }

/-- The ResizableArray constructor: allocate a block of 8 + capacity*4 bytes,
register with the allocator (which assigns the id and records the bump offset
current at that moment), then persist the initial metadata. -/
def RArray.new (alloc : Alloc) (initialCapacity : Nat) :
    Except String (RArray × Alloc) := do
  let capacity := initialCapacity
  let (block, a1) ← alloc.allocate (8 + capacity * 4)
  let (id, a2) := a1.registerStructure
  let ra : RArray := { length := 0, capacity := capacity, block := block, __ID := id }
  Except.ok (ra, ra.saveMetadata a2)

/-- resize from the source: double the capacity, allocate a new block, copy
the old payload bytes, free the old block, adopt the new block and capacity,
persist metadata. -/
def RArray.resize (ra : RArray) (a : Alloc) : Except String (RArray × Alloc) := do
  let newCapacity := ra.capacity * 2
  let (newBlock, a1) ← a.allocate (8 + newCapacity * 4)
  let m := copyBytes a1.mem (ra.block.offset + 8) (newBlock.offset + 8) (ra.capacity * 4)
  let a2 ← Alloc.free { a1 with mem := m } ra.block
  let ra2 : RArray := { ra with capacity := newCapacity, block := newBlock }
  Except.ok (ra2, ra2.saveMetadata a2)

/-- push from the source: resize first when full, then write the value at
block.offset + 8 + length*4, increment the length and persist metadata. -/
def RArray.push (ra : RArray) (a : Alloc) (value : Nat) :
    Except String (RArray × Alloc) := do
  let (ra1, a1) ←
    if ra.capacity ≤ ra.length then ra.resize a
    else Except.ok (ra, a)
  let m := setUint32 a1.mem (ra1.block.offset + 8 + ra1.length * 4) value
  let ra2 : RArray := { ra1 with length := ra1.length + 1 }
  Except.ok (ra2, ra2.saveMetadata { a1 with mem := m })

/-- get from the source: out-of-bounds for index at or past the length,
otherwise read the element at block.offset + 8 + index*4. -/
def RArray.get (ra : RArray) (a : Alloc) (index : Nat) : Except String Nat :=
  if ra.length ≤ index then .error "Index out of bounds"
  else .ok (getUint32 a.mem (ra.block.offset + 8 + index * 4))

/-- restore from the source: adopt a block reference at the given offset,
framed by the capacity currently held, then load length and capacity from the
bytes at that offset. -/
def RArray.restore (ra : RArray) (a : Alloc) (offset : Nat) : RArray :=
  let block : MemoryBlockRef := ⟨offset, ra.capacity * 4 + 8⟩
  { ra with block := block,
            length := getUint32 a.mem offset,
            capacity := getUint32 a.mem (offset + 4) }

/-- Extract the ok value of a fallible allocator step, with a default. -/
def exOkA (e : Except String Alloc) (d : Alloc) : Alloc :=
  match e with
  | .ok a => a
  | .error _ => d

/-- Extract the ok value of a fallible allocation step, with a default. -/
def exOkP (e : Except String (MemoryBlockRef × Alloc)) (d : MemoryBlockRef × Alloc) :
    MemoryBlockRef × Alloc :=
  match e with
  | .ok p => p
  | .error _ => d

/-- Extract the ok value of a fallible ResizableArray step, with a default. -/
def exOkR (e : Except String (RArray × Alloc)) (d : RArray × Alloc) : RArray × Alloc :=
  match e with
  | .ok p => p
  | .error _ => d

/-- Extract the ok value of a fallible numeric result, with a default. -/
def exOkN (e : Except String Nat) (d : Nat) : Nat :=
  match e with
  | .ok n => n
  | .error _ => d

instance : DecidableEq (Except String Nat)
  | .ok x, .ok y => decidable_of_iff (x = y) (by simp)
  | .ok _, .error _ => isFalse (by simp)
  | .error _, .ok _ => isFalse (by simp)
  | .error s, .error t => decidable_of_iff (s = t) (by simp)

/-- Concrete scenario: a fresh arena of 1024 bytes with the default free-list
capacity 100 (the free-block table spans bytes 12..811, so the data region
starts at byte 812). -/
def w0 : Alloc := Allocator.new 1024 100

/-- Fallback pair for the concrete scenarios. -/
def wDflt : MemoryBlockRef × Alloc := (⟨0, 0⟩, w0)

/-- First allocation of the concrete scenario: 100 bytes at offset 812. -/
def w1 : MemoryBlockRef × Alloc := exOkP (w0.allocate 100) wDflt

/-- Second allocation of the concrete scenario: 50 bytes at offset 912. -/
def w2 : MemoryBlockRef × Alloc := exOkP (w1.2.allocate 50) wDflt

/-- The concrete scenario after freeing the first block. -/
def w3 : Alloc := exOkA (w2.2.free w1.1) w2.2

/-- ResizableArray round-trip scenario: the allocator. -/
def c1a0 : Alloc := Allocator.new 1024 100

/-- Fallback pair for the ResizableArray scenario. -/
def c1dflt : RArray × Alloc := (⟨0, 0, ⟨0, 0⟩, 0⟩, c1a0)

/-- ResizableArray round-trip scenario: construct with initial capacity 2. -/
def c1mk : RArray × Alloc := exOkR (RArray.new c1a0 2) c1dflt

/-- ResizableArray round-trip scenario: push 42. -/
def c1p1 : RArray × Alloc := exOkR (RArray.push c1mk.1 c1mk.2 42) c1mk

/-- ResizableArray round-trip scenario: push 84. -/
def c1p2 : RArray × Alloc := exOkR (RArray.push c1p1.1 c1p1.2 84) c1p1

/-- The offset recorded for the array in the allocator's structure registry. -/
def c1off : Nat := exOkN (c1p2.2.getStructureOffset c1p2.1.__ID) 0

/-- The array after calling restore with the registry's recorded offset on the
same allocator instance. -/
def c1restored : RArray := RArray.restore c1p2.1 c1p2.2 c1off

theorem setByte_self (m : Mem) (i v : Nat) : setByte m i v i = v := by
  simp [setByte]

theorem setByte_ne (m : Mem) (i v j : Nat) (h : j ≠ i) : setByte m i v j = m j := by
  simp [setByte, h]

theorem getUint32_setUint32_same (m : Mem) (off v : Nat) :
    getUint32 (setUint32 m off v) off = v % 4294967296 := by
  unfold getUint32 setUint32
  rw [setByte_ne _ _ _ _ (by omega), setByte_ne _ _ _ _ (by omega),
      setByte_ne _ _ _ _ (by omega), setByte_self,
      setByte_ne _ _ _ _ (by omega), setByte_ne _ _ _ _ (by omega), setByte_self,
      setByte_ne _ _ _ _ (by omega), setByte_self, setByte_self]
  omega

theorem setUint32_apart (m : Mem) (off v j : Nat) (h : j < off ∨ off + 4 ≤ j) :
    setUint32 m off v j = m j := by
  unfold setUint32
  rw [setByte_ne _ _ _ _ (by omega), setByte_ne _ _ _ _ (by omega),
      setByte_ne _ _ _ _ (by omega), setByte_ne _ _ _ _ (by omega)]

theorem getUint32_setUint32_apart (m : Mem) (off v o : Nat)
    (h : o + 4 ≤ off ∨ off + 4 ≤ o) :
    getUint32 (setUint32 m off v) o = getUint32 m o := by
  unfold getUint32
  rw [setUint32_apart _ _ _ _ (by omega), setUint32_apart _ _ _ _ (by omega),
      setUint32_apart _ _ _ _ (by omega), setUint32_apart _ _ _ _ (by omega)]

theorem getUint32_lt (m : Mem) (hm : ByteStore m) (off : Nat) :
    getUint32 m off < 4294967296 := by
  unfold getUint32
  have h0 := hm off
  have h1 := hm (off + 1)
  have h2 := hm (off + 2)
  have h3 := hm (off + 3)
  omega

theorem byteStore_zero : ByteStore (fun _ => 0) := by
  intro i
  show (0 : Nat) < 256
  omega

theorem byteStore_setByte (m : Mem) (i v : Nat) (hm : ByteStore m) (hv : v < 256) :
    ByteStore (setByte m i v) := by
  intro j
  unfold setByte
  split
  · exact hv
  · exact hm j

theorem byteStore_setUint32 (m : Mem) (off v : Nat) (hm : ByteStore m) :
    ByteStore (setUint32 m off v) := by
  unfold setUint32
  apply byteStore_setByte
  apply byteStore_setByte
  apply byteStore_setByte
  apply byteStore_setByte
  · exact hm
  all_goals omega

theorem readBlocks_length (m : Mem) (n : Nat) : (readBlocks m n).length = n := by
  simp [readBlocks]

theorem readBlocks_getElem (m : Mem) (n i : Nat) (h : i < (readBlocks m n).length) :
    (readBlocks m n)[i] =
      (⟨getUint32 m (12 + i * 8), getUint32 m (12 + i * 8 + 4)⟩ : MemoryBlockRef) := by
  simp [readBlocks]

theorem readBlocks_setUint32_apart (m : Mem) (n o v : Nat)
    (h : o + 4 ≤ 12 ∨ 12 + n * 8 ≤ o) :
    readBlocks (setUint32 m o v) n = readBlocks m n := by
  unfold readBlocks
  apply List.map_congr_left
  intro i hi
  rw [List.mem_range] at hi
  rw [getUint32_setUint32_apart _ _ _ _ (by omega),
      getUint32_setUint32_apart _ _ _ _ (by omega)]

theorem getUint32_writeBlocks_low (bs : List MemoryBlockRef) (m : Mem) (i o : Nat)
    (h : o + 4 ≤ 12 + i * 8) :
    getUint32 (writeBlocks m bs i) o = getUint32 m o := by
  induction bs generalizing m i with
  | nil => rfl
  | cons b rest ih =>
      unfold writeBlocks
      rw [ih _ (i + 1) (by omega),
          getUint32_setUint32_apart _ _ _ _ (by omega),
          getUint32_setUint32_apart _ _ _ _ (by omega)]

theorem writeBlocks_slot_offset (bs : List MemoryBlockRef) (m : Mem) (i k : Nat)
    (h : k < bs.length) :
    getUint32 (writeBlocks m bs i) (12 + (i + k) * 8) = bs[k].offset % 4294967296 := by
  induction bs generalizing m i k with
  | nil => simp at h
  | cons b rest ih =>
      unfold writeBlocks
      match k with
      | 0 =>
          rw [getUint32_writeBlocks_low _ _ _ _ (by omega),
              getUint32_setUint32_apart _ _ _ _ (by omega)]
          simpa using getUint32_setUint32_same m (12 + i * 8) b.offset
      | k + 1 =>
          have hk : k < rest.length := by simpa using h
          have := ih (setUint32 (setUint32 m (12 + i * 8) b.offset) (12 + i * 8 + 4) b.size)
            (i + 1) k hk
          have harith : 12 + (i + 1 + k) * 8 = 12 + (i + (k + 1)) * 8 := by omega
          rw [harith] at this
          rw [this]
          simp

theorem writeBlocks_slot_size (bs : List MemoryBlockRef) (m : Mem) (i k : Nat)
    (h : k < bs.length) :
    getUint32 (writeBlocks m bs i) (12 + (i + k) * 8 + 4) = bs[k].size % 4294967296 := by
  induction bs generalizing m i k with
  | nil => simp at h
  | cons b rest ih =>
      unfold writeBlocks
      match k with
      | 0 =>
          rw [getUint32_writeBlocks_low _ _ _ _ (by omega)]
          simpa using getUint32_setUint32_same
            (setUint32 m (12 + i * 8) b.offset) (12 + i * 8 + 4) b.size
      | k + 1 =>
          have hk : k < rest.length := by simpa using h
          have := ih (setUint32 (setUint32 m (12 + i * 8) b.offset) (12 + i * 8 + 4) b.size)
            (i + 1) k hk
          have harith : 12 + (i + 1 + k) * 8 = 12 + (i + (k + 1)) * 8 := by omega
          rw [harith] at this
          rw [this]
          simp

theorem byteStore_writeBlocks (bs : List MemoryBlockRef) (m : Mem) (i : Nat)
    (hm : ByteStore m) : ByteStore (writeBlocks m bs i) := by
  induction bs generalizing m i with
  | nil => exact hm
  | cons b rest ih =>
      unfold writeBlocks
      exact ih _ _ (byteStore_setUint32 _ _ _ (byteStore_setUint32 _ _ _ hm))

/-- One block's range ends at or before another's begins: the relation that
holds pairwise, in order, on a sorted list of pairwise disjoint blocks. -/
def endLE (b c : MemoryBlockRef) : Prop := b.offset + b.size ≤ c.offset

/-- Strict separation: one block's range ends strictly before another's
begins (no overlap and no adjacency). -/
def sepLT (b c : MemoryBlockRef) : Prop := b.offset + b.size < c.offset

theorem inRange_iff (b : MemoryBlockRef) (x : Nat) :
    b.inRange x ↔ b.offset ≤ x ∧ x < b.offset + b.size := Iff.rfl

theorem inRange_mk (o s x : Nat) :
    (MemoryBlockRef.mk o s).inRange x ↔ o ≤ x ∧ x < o + s := Iff.rfl

theorem covers_nil (x : Nat) : ¬ covers [] x := by
  simp [covers]

theorem covers_cons (b : MemoryBlockRef) (l : List MemoryBlockRef) (x : Nat) :
    covers (b :: l) x ↔ b.inRange x ∨ covers l x := by
  simp [covers]

theorem covers_perm (l l2 : List MemoryBlockRef) (h : l.Perm l2) (x : Nat) :
    covers l x ↔ covers l2 x := by
  unfold covers
  constructor
  · rintro ⟨b, hb, hr⟩
    exact ⟨b, h.mem_iff.mp hb, hr⟩
  · rintro ⟨b, hb, hr⟩
    exact ⟨b, h.mem_iff.mpr hb, hr⟩

theorem covers_append (l l2 : List MemoryBlockRef) (x : Nat) :
    covers (l ++ l2) x ↔ covers l x ∨ covers l2 x := by
  simp [covers, or_and_right, exists_or]

theorem sortByOffset_perm (l : List MemoryBlockRef) : (sortByOffset l).Perm l :=
  List.perm_insertionSort blockLE l

theorem sortByOffset_sorted (l : List MemoryBlockRef) :
    (sortByOffset l).Pairwise blockLE :=
  List.sorted_insertionSort blockLE l

theorem disjoint_symm (b c : MemoryBlockRef) (h : b.disjoint c) : c.disjoint b := by
  unfold MemoryBlockRef.disjoint at h ⊢
  omega

theorem pairwise_disjoint_perm (l l2 : List MemoryBlockRef) (h : l.Perm l2)
    (hp : l.Pairwise MemoryBlockRef.disjoint) : l2.Pairwise MemoryBlockRef.disjoint :=
  (List.Perm.pairwise_iff (fun hxy => disjoint_symm _ _ hxy) h).mp hp

theorem sorted_disjoint_endLE (l : List MemoryBlockRef)
    (hs : l.Pairwise blockLE) (hd : l.Pairwise MemoryBlockRef.disjoint)
    (hpos : ∀ e ∈ l, 0 < e.size) : l.Pairwise endLE := by
  have := hs.and hd
  refine this.imp_of_mem ?_
  intro a b ha hb hab
  have hbpos := hpos b hb
  rcases hab with ⟨hle, hd2 | hd2⟩
  · exact hd2
  · unfold blockLE at hle
    unfold endLE
    omega

theorem mergeInto_offset_le (l : List MemoryBlockRef) (b : MemoryBlockRef)
    (hp : (b :: l).Pairwise endLE) :
    ∀ e ∈ mergeInto b l, b.offset ≤ e.offset := by
  induction l generalizing b with
  | nil =>
      intro e he
      simp [mergeInto] at he
      simp [he]
  | cons c rest ih =>
      intro e he
      rw [List.pairwise_cons] at hp
      obtain ⟨hhead, htail⟩ := hp
      have hbc : endLE b c := hhead c (by simp)
      unfold mergeInto at he
      split at he
      · rcases List.mem_cons.mp he with he | he
        · simp [he]
        · have := ih c htail e he
          unfold endLE at hbc
          omega
      · have hp2 : (MemoryBlockRef.mk b.offset (b.size + c.size) :: rest).Pairwise endLE := by
          rw [List.pairwise_cons] at htail ⊢
          refine ⟨?_, htail.2⟩
          intro d hd
          have hcd := htail.1 d hd
          unfold endLE at hbc hcd ⊢
          simp only at *
          omega
        have := ih _ hp2 e he
        simpa using this

theorem mergeInto_pairwise (l : List MemoryBlockRef) (b : MemoryBlockRef)
    (hp : (b :: l).Pairwise endLE) :
    (mergeInto b l).Pairwise sepLT := by
  induction l generalizing b with
  | nil => simp [mergeInto]
  | cons c rest ih =>
      rw [List.pairwise_cons] at hp
      obtain ⟨hhead, htail⟩ := hp
      have hbc : endLE b c := hhead c (by simp)
      unfold mergeInto
      split
      · rename_i hlt
        rw [List.pairwise_cons]
        refine ⟨?_, ih c htail⟩
        intro e he
        have := mergeInto_offset_le rest c htail e he
        unfold sepLT
        omega
      · rename_i hnlt
        have hp2 : (MemoryBlockRef.mk b.offset (b.size + c.size) :: rest).Pairwise endLE := by
          rw [List.pairwise_cons] at htail ⊢
          refine ⟨?_, htail.2⟩
          intro d hd
          have hcd := htail.1 d hd
          unfold endLE at hbc hcd ⊢
          simp only at *
          omega
        exact ih _ hp2

theorem mergeInto_covers (l : List MemoryBlockRef) (b : MemoryBlockRef)
    (hp : (b :: l).Pairwise endLE) (x : Nat) :
    covers (mergeInto b l) x ↔ (b.inRange x ∨ covers l x) := by
  induction l generalizing b with
  | nil =>
      simp [mergeInto, covers_cons, covers_nil]
  | cons c rest ih =>
      rw [List.pairwise_cons] at hp
      obtain ⟨hhead, htail⟩ := hp
      have hbc : endLE b c := hhead c (by simp)
      unfold mergeInto
      split
      · rw [covers_cons, ih c htail, covers_cons]
      · rename_i hnlt
        have hp2 : (MemoryBlockRef.mk b.offset (b.size + c.size) :: rest).Pairwise endLE := by
          rw [List.pairwise_cons] at htail ⊢
          refine ⟨?_, htail.2⟩
          intro d hd
          have hcd := htail.1 d hd
          unfold endLE at hbc hcd ⊢
          simp only at *
          omega
        rw [ih _ hp2, covers_cons]
        unfold MemoryBlockRef.inRange endLE at *
        simp only at *
        constructor
        · rintro (h | h)
          · by_cases hx : x < b.offset + b.size
            · exact Or.inl ⟨h.1, hx⟩
            · exact Or.inr (Or.inl ⟨by omega, by omega⟩)
          · exact Or.inr (Or.inr h)
        · rintro (h | h | h)
          · exact Or.inl ⟨h.1, by omega⟩
          · exact Or.inl ⟨by omega, by omega⟩
          · exact Or.inr h

theorem mergeInto_size_pos (l : List MemoryBlockRef) (b : MemoryBlockRef)
    (hpos : ∀ e ∈ b :: l, 0 < e.size) :
    ∀ e ∈ mergeInto b l, 0 < e.size := by
  induction l generalizing b with
  | nil =>
      intro e he
      have hb := hpos b (by simp)
      simp [mergeInto] at he
      rw [he]
      exact hb
  | cons c rest ih =>
      intro e he
      unfold mergeInto at he
      split at he
      · rcases List.mem_cons.mp he with he | he
        · have hb := hpos b (by simp)
          rw [he]
          exact hb
        · refine ih c ?_ e he
          intro f hf
          exact hpos f (by simp [List.mem_cons] at hf ⊢; tauto)
      · refine ih _ ?_ e he
        intro f hf
        rcases List.mem_cons.mp hf with hf | hf
        · subst hf
          have := hpos b (by simp)
          simp only
          omega
        · exact hpos f (by simp [hf])

theorem mergeInto_length (l : List MemoryBlockRef) (b : MemoryBlockRef) :
    (mergeInto b l).length ≤ l.length + 1 := by
  induction l generalizing b with
  | nil => simp [mergeInto]
  | cons c rest ih =>
      unfold mergeInto
      split
      · have := ih c
        simp only [List.length_cons]
        omega
      · have := ih (MemoryBlockRef.mk b.offset (b.size + c.size))
        simp only [List.length_cons]
        omega

theorem mergeInto_size_le_sum (l : List MemoryBlockRef) (b : MemoryBlockRef) :
    ∀ e ∈ mergeInto b l, e.size ≤ b.size + (l.map MemoryBlockRef.size).sum := by
  induction l generalizing b with
  | nil =>
      intro e he
      simp [mergeInto] at he
      simp [he]
  | cons c rest ih =>
      intro e he
      unfold mergeInto at he
      split at he
      · rcases List.mem_cons.mp he with he | he
        · subst he; simp
        · have := ih c e he
          simp only [List.map_cons, List.sum_cons]
          omega
      · have := ih _ e he
        simp only [List.map_cons, List.sum_cons] at this ⊢
        omega

theorem mergeInto_offset_mem (l : List MemoryBlockRef) (b : MemoryBlockRef) :
    ∀ e ∈ mergeInto b l, e.offset = b.offset ∨ ∃ f ∈ l, e.offset = f.offset := by
  induction l generalizing b with
  | nil =>
      intro e he
      simp [mergeInto] at he
      simp [he]
  | cons c rest ih =>
      intro e he
      unfold mergeInto at he
      split at he
      · rcases List.mem_cons.mp he with he | he
        · simp [he]
        · rcases ih c e he with h | ⟨f, hf, h⟩
          · exact Or.inr ⟨c, by simp, h⟩
          · exact Or.inr ⟨f, by simp [hf], h⟩
      · rcases ih _ e he with h | ⟨f, hf, h⟩
        · exact Or.inl (by simpa using h)
        · exact Or.inr ⟨f, by simp [hf], h⟩

theorem mergeInto_covers_mono (l : List MemoryBlockRef) (b : MemoryBlockRef)
    (hs : (b :: l).Pairwise blockLE) (x : Nat)
    (h : b.inRange x ∨ covers l x) : covers (mergeInto b l) x := by
  induction l generalizing b with
  | nil =>
      unfold mergeInto
      rw [covers_cons]
      rcases h with h | h
      · exact Or.inl h
      · exact absurd h (covers_nil x)
  | cons c rest ih =>
      rw [List.pairwise_cons] at hs
      obtain ⟨hhead, htail⟩ := hs
      have hbc : blockLE b c := hhead c (by simp)
      unfold mergeInto
      split
      · rw [covers_cons]
        rcases h with h | h
        · exact Or.inl h
        · rw [covers_cons] at h
          exact Or.inr (ih c htail h)
      · rename_i hnlt
        have hs2 : (MemoryBlockRef.mk b.offset (b.size + c.size) :: rest).Pairwise blockLE := by
          rw [List.pairwise_cons] at htail ⊢
          refine ⟨?_, htail.2⟩
          intro d hd
          have hcd := htail.1 d hd
          unfold blockLE at hbc hcd ⊢
          simp only at *
          omega
        have hcb : c.offset ≤ b.offset + b.size := by omega
        refine ih _ hs2 ?_
        rcases h with h | h
        · rw [inRange_iff] at h
          exact Or.inl ((inRange_mk _ _ _).mpr (by omega))
        · rw [covers_cons] at h
          rcases h with h | h
          · rw [inRange_iff] at h
            have hbc2 : b.offset ≤ c.offset := hbc
            exact Or.inl ((inRange_mk _ _ _).mpr (by omega))
          · exact Or.inr h

theorem mergeBlocks_pairwise (l : List MemoryBlockRef) (hp : l.Pairwise endLE) :
    (mergeBlocks l).Pairwise sepLT := by
  cases l with
  | nil => simp [mergeBlocks]
  | cons b rest => exact mergeInto_pairwise rest b hp

theorem mergeBlocks_covers (l : List MemoryBlockRef) (hp : l.Pairwise endLE) (x : Nat) :
    covers (mergeBlocks l) x ↔ covers l x := by
  cases l with
  | nil => simp [mergeBlocks]
  | cons b rest =>
      unfold mergeBlocks
      rw [mergeInto_covers rest b hp, covers_cons]

theorem mergeBlocks_covers_mono (l : List MemoryBlockRef) (hs : l.Pairwise blockLE)
    (x : Nat) (h : covers l x) : covers (mergeBlocks l) x := by
  cases l with
  | nil => exact absurd h (covers_nil x)
  | cons b rest =>
      unfold mergeBlocks
      rw [covers_cons] at h
      exact mergeInto_covers_mono rest b hs x h

theorem mergeBlocks_size_pos (l : List MemoryBlockRef) (hpos : ∀ e ∈ l, 0 < e.size) :
    ∀ e ∈ mergeBlocks l, 0 < e.size := by
  cases l with
  | nil => simp [mergeBlocks]
  | cons b rest => exact mergeInto_size_pos rest b hpos

theorem mergeBlocks_length (l : List MemoryBlockRef) :
    (mergeBlocks l).length ≤ l.length := by
  cases l with
  | nil => simp [mergeBlocks]
  | cons b rest => simpa using mergeInto_length rest b

theorem mergeBlocks_size_le_sum (l : List MemoryBlockRef) :
    ∀ e ∈ mergeBlocks l, e.size ≤ (l.map MemoryBlockRef.size).sum := by
  cases l with
  | nil => simp [mergeBlocks]
  | cons b rest =>
      intro e he
      have := mergeInto_size_le_sum rest b e he
      simpa using this

theorem mergeBlocks_offset_mem (l : List MemoryBlockRef) :
    ∀ e ∈ mergeBlocks l, ∃ f ∈ l, e.offset = f.offset := by
  cases l with
  | nil => simp [mergeBlocks]
  | cons b rest =>
      intro e he
      rcases mergeInto_offset_mem rest b e he with h | ⟨f, hf, h⟩
      · exact ⟨b, by simp, h⟩
      · exact ⟨f, by simp [hf], h⟩

theorem restoreLoop_ok (a a2 : Alloc) (l : List Nat) (h : restoreLoop a l = .ok a2) :
    a2 = a := by
  induction l with
  | nil =>
      simp only [restoreLoop] at h
      cases h
      rfl
  | cons i rest ih =>
      simp only [restoreLoop] at h
      split at h
      · exact absurd h (by simp)
      · exact ih h

theorem restoreStructures_of_zero (a : Alloc) (h : getUint32 a.mem 8 = 0) :
    a.restoreStructures = .ok a := by
  unfold Alloc.restoreStructures
  rw [h]
  rfl

theorem getUint32_copyExpand (m : Mem) (len o : Nat) (h : o + 4 ≤ len) :
    getUint32 (fun i => if i < len then m i else 0) o = getUint32 m o := by
  show (if o < len then m o else 0) * 16777216 + (if o + 1 < len then m (o + 1) else 0) * 65536
      + (if o + 2 < len then m (o + 2) else 0) * 256 + (if o + 3 < len then m (o + 3) else 0)
      = getUint32 m o
  rw [if_pos (by omega), if_pos (by omega), if_pos (by omega), if_pos (by omega)]
  rfl

theorem readBlocks_copyExpand (m : Mem) (len n : Nat) (h : 12 + n * 8 ≤ len) :
    readBlocks (fun i => if i < len then m i else 0) n = readBlocks m n := by
  unfold readBlocks
  apply List.map_congr_left
  intro i hi
  rw [List.mem_range] at hi
  rw [getUint32_copyExpand _ _ _ (by omega), getUint32_copyExpand _ _ _ (by omega)]

theorem byteStore_copyExpand (m : Mem) (len : Nat) (hm : ByteStore m) :
    ByteStore (fun i => if i < len then m i else 0) := by
  intro i
  by_cases h : i < len
  · simpa [h] using hm i
  · simp [h]

theorem coalesce_spec (A : Alloc) (bs : List MemoryBlockRef)
    (hread : readBlocks A.mem (getUint32 A.mem 4) = bs)
    (hlen32 : (mergeBlocks (sortByOffset bs)).length < 4294967296)
    (hfields : ∀ e ∈ mergeBlocks (sortByOffset bs),
        e.offset < 4294967296 ∧ e.size < 4294967296) :
    A.coalesceFreeBlocks.freeList = mergeBlocks (sortByOffset bs) ∧
    getUint32 A.coalesceFreeBlocks.mem 4 = (mergeBlocks (sortByOffset bs)).length ∧
    getUint32 A.coalesceFreeBlocks.mem 0 = getUint32 A.mem 0 ∧
    getUint32 A.coalesceFreeBlocks.mem 8 = getUint32 A.mem 8 ∧
    A.coalesceFreeBlocks.len = A.len ∧
    A.coalesceFreeBlocks.maxFreeBlocks = A.maxFreeBlocks ∧
    A.coalesceFreeBlocks.structures = A.structures ∧
    A.coalesceFreeBlocks.nextId = A.nextId ∧
    (ByteStore A.mem → ByteStore A.coalesceFreeBlocks.mem) := by
  have hmem : A.coalesceFreeBlocks.mem
      = setUint32 (writeBlocks A.mem (mergeBlocks (sortByOffset bs)) 0) 4
          (mergeBlocks (sortByOffset bs)).length := by
    simp only [Alloc.coalesceFreeBlocks, hread]
  have hcnt : getUint32 A.coalesceFreeBlocks.mem 4 = (mergeBlocks (sortByOffset bs)).length := by
    rw [hmem, getUint32_setUint32_same, Nat.mod_eq_of_lt hlen32]
  refine ⟨?_, hcnt, ?_, ?_, rfl, rfl, rfl, rfl, ?_⟩
  · show readBlocks A.coalesceFreeBlocks.mem (getUint32 A.coalesceFreeBlocks.mem 4)
        = mergeBlocks (sortByOffset bs)
    rw [hcnt]
    apply List.ext_getElem
    · rw [readBlocks_length]
    · intro j h1 h2
      rw [readBlocks_length] at h1
      rw [readBlocks_getElem _ _ _ (by rw [readBlocks_length]; exact h1)]
      rw [hmem]
      rw [getUint32_setUint32_apart _ _ _ _ (by omega),
          getUint32_setUint32_apart _ _ _ _ (by omega)]
      have hoff := writeBlocks_slot_offset (mergeBlocks (sortByOffset bs)) A.mem 0 j h1
      have hsz := writeBlocks_slot_size (mergeBlocks (sortByOffset bs)) A.mem 0 j h1
      rw [Nat.zero_add] at hoff hsz
      rw [hoff, hsz]
      have hf := hfields ((mergeBlocks (sortByOffset bs))[j]) (by simp)
      rw [Nat.mod_eq_of_lt hf.1, Nat.mod_eq_of_lt hf.2]
  · rw [hmem, getUint32_setUint32_apart _ _ _ _ (by omega),
        getUint32_writeBlocks_low _ _ _ _ (by omega)]
  · rw [hmem, getUint32_setUint32_apart _ _ _ _ (by omega),
        getUint32_writeBlocks_low _ _ _ _ (by omega)]
  · intro hstore
    rw [hmem]
    exact byteStore_setUint32 _ _ _ (byteStore_writeBlocks _ _ _ hstore)

theorem readBlocks_succ (m : Mem) (n : Nat) :
    readBlocks m (n + 1)
      = readBlocks m n ++ [⟨getUint32 m (12 + n * 8), getUint32 m (12 + n * 8 + 4)⟩] := by
  unfold readBlocks
  rw [List.range_succ, List.map_append]
  rfl

theorem free_spec (a : Alloc) (b : MemoryBlockRef)
    (hcnt : getUint32 a.mem 4 < a.maxFreeBlocks)
    (hmax : a.maxFreeBlocks < 4294967296)
    (hboff : b.offset < 4294967296) (hbsize : b.size < 4294967296)
    (hfields : ∀ e ∈ mergeBlocks (sortByOffset (a.freeList ++ [b])),
        e.offset < 4294967296 ∧ e.size < 4294967296) :
    ∃ a1, a.free b = .ok a1 ∧
      a1.freeList = mergeBlocks (sortByOffset (a.freeList ++ [b])) ∧
      getUint32 a1.mem 4 = (mergeBlocks (sortByOffset (a.freeList ++ [b]))).length ∧
      getUint32 a1.mem 0 = getUint32 a.mem 0 ∧
      getUint32 a1.mem 8 = getUint32 a.mem 8 ∧
      a1.len = a.len ∧ a1.maxFreeBlocks = a.maxFreeBlocks ∧
      a1.structures = a.structures ∧ a1.nextId = a.nextId ∧
      (ByteStore a.mem → ByteStore a1.mem) := by
  set n := getUint32 a.mem 4 with hn
  set m3 := setUint32 (setUint32 (setUint32 a.mem (12 + n * 8) b.offset)
    (12 + n * 8 + 4) b.size) 4 (n + 1) with hm3
  set A1 : Alloc := { a with mem := m3 } with hA1
  have hfree : a.free b = .ok A1.coalesceFreeBlocks := by
    unfold Alloc.free
    rw [if_neg (by omega)]
  have hcnt1 : getUint32 A1.mem 4 = n + 1 := by
    show getUint32 m3 4 = n + 1
    rw [hm3, getUint32_setUint32_same, Nat.mod_eq_of_lt (by omega)]
  have hread1 : readBlocks A1.mem (getUint32 A1.mem 4) = a.freeList ++ [b] := by
    rw [hcnt1]
    show readBlocks m3 (n + 1) = a.freeList ++ [b]
    rw [readBlocks_succ]
    have hoff : getUint32 m3 (12 + n * 8) = b.offset := by
      rw [hm3, getUint32_setUint32_apart _ _ _ _ (by omega),
          getUint32_setUint32_apart _ _ _ _ (by omega),
          getUint32_setUint32_same, Nat.mod_eq_of_lt hboff]
    have hsz : getUint32 m3 (12 + n * 8 + 4) = b.size := by
      rw [hm3, getUint32_setUint32_apart _ _ _ _ (by omega),
          getUint32_setUint32_same, Nat.mod_eq_of_lt hbsize]
    have hpre : readBlocks m3 n = a.freeList := by
      rw [hm3, readBlocks_setUint32_apart _ _ _ _ (by omega),
          readBlocks_setUint32_apart _ _ _ _ (by omega),
          readBlocks_setUint32_apart _ _ _ _ (by omega)]
      rfl
    rw [hoff, hsz, hpre]
  have hml : (mergeBlocks (sortByOffset (a.freeList ++ [b]))).length < 4294967296 := by
    have h1 := mergeBlocks_length (sortByOffset (a.freeList ++ [b]))
    have h2 := (sortByOffset_perm (a.freeList ++ [b])).length_eq
    have h3 : (a.freeList ++ [b]).length = n + 1 := by
      simp [Alloc.freeList, readBlocks_length]
    omega
  obtain ⟨hfl, hc4, hc0, hc8, hlen, hmaxf, hstr, hnid, hbytes⟩ :=
    coalesce_spec A1 (a.freeList ++ [b]) hread1 hml hfields
  refine ⟨A1.coalesceFreeBlocks, hfree, hfl, hc4, ?_, ?_, hlen, hmaxf, hstr, hnid, ?_⟩
  · rw [hc0]
    show getUint32 m3 0 = getUint32 a.mem 0
    rw [hm3, getUint32_setUint32_apart _ _ _ _ (by omega),
        getUint32_setUint32_apart _ _ _ _ (by omega),
        getUint32_setUint32_apart _ _ _ _ (by omega)]
  · rw [hc8]
    show getUint32 m3 8 = getUint32 a.mem 8
    rw [hm3, getUint32_setUint32_apart _ _ _ _ (by omega),
        getUint32_setUint32_apart _ _ _ _ (by omega),
        getUint32_setUint32_apart _ _ _ _ (by omega)]
  · intro hstore
    apply hbytes
    show ByteStore m3
    rw [hm3]
    exact byteStore_setUint32 _ _ _ (byteStore_setUint32 _ _ _ (byteStore_setUint32 _ _ _ hstore))

theorem findFreeBlock_some_spec (m : Mem) (size : Nat) (l : List Nat) (i bo bs : Nat)
    (h : findFreeBlock m size l = some (i, bo, bs)) :
    i ∈ l ∧ bo = getUint32 m (12 + i * 8) ∧ bs = getUint32 m (12 + i * 8 + 4) ∧ size ≤ bs := by
  induction l with
  | nil => simp [findFreeBlock] at h
  | cons j rest ih =>
      simp only [findFreeBlock] at h
      split at h
      · rename_i hle
        simp only [Option.some.injEq, Prod.mk.injEq] at h
        obtain ⟨hi, hbo, hbs⟩ := h
        subst hi
        subst hbo
        subst hbs
        exact ⟨by simp, rfl, rfl, hle⟩
      · have := ih h
        exact ⟨by simp [this.1], this.2.1, this.2.2.1, this.2.2.2⟩

theorem allocate_split_spec (a : Alloc) (size i bo bs : Nat)
    (hfind : findFreeBlock a.mem size (List.range (getUint32 a.mem 4)) = some (i, bo, bs))
    (hrem : size < bs)
    (hbs32 : bs < 4294967296) (hbo32 : bo + size < 4294967296) :
    ∃ a1, a.allocate size = .ok (⟨bo, size⟩, a1) ∧
      a1.freeList = (a.freeList).set i ⟨bo + size, bs - size⟩ ∧
      getUint32 a1.mem 4 = getUint32 a.mem 4 ∧
      getUint32 a1.mem 0 = getUint32 a.mem 0 ∧
      getUint32 a1.mem 8 = getUint32 a.mem 8 ∧
      a1.len = a.len ∧ a1.maxFreeBlocks = a.maxFreeBlocks ∧
      a1.structures = a.structures ∧ a1.nextId = a.nextId ∧
      (ByteStore a.mem → ByteStore a1.mem) := by
  obtain ⟨hmem_i, hbo, hbs, hsz⟩ := findFreeBlock_some_spec a.mem size _ i bo bs hfind
  have hi : i < getUint32 a.mem 4 := List.mem_range.mp hmem_i
  set m2 := setUint32 (setUint32 a.mem (12 + i * 8) (bo + size)) (12 + i * 8 + 4) (bs - size)
    with hm2
  have hc4 : getUint32 m2 4 = getUint32 a.mem 4 := by
    rw [hm2, getUint32_setUint32_apart _ _ _ _ (by omega),
        getUint32_setUint32_apart _ _ _ _ (by omega)]
  refine ⟨{ a with mem := m2 }, ?_, ?_, hc4, ?_, ?_, rfl, rfl, rfl, rfl, ?_⟩
  · simp only [Alloc.allocate, hfind]
    rw [if_pos (by omega)]
  · show readBlocks m2 (getUint32 m2 4) = _
    rw [hc4]
    apply List.ext_getElem
    · rw [readBlocks_length, List.length_set]
      simp [Alloc.freeList, readBlocks_length]
    · intro j h1 h2
      rw [readBlocks_length] at h1
      rw [readBlocks_getElem _ _ _ (by rw [readBlocks_length]; exact h1)]
      rw [List.getElem_set]
      by_cases hij : i = j
      · subst hij
        rw [if_pos rfl]
        have hoffv : getUint32 m2 (12 + i * 8) = bo + size := by
          rw [hm2, getUint32_setUint32_apart _ _ _ _ (by omega),
              getUint32_setUint32_same, Nat.mod_eq_of_lt hbo32]
        have hszv : getUint32 m2 (12 + i * 8 + 4) = bs - size := by
          rw [hm2, getUint32_setUint32_same, Nat.mod_eq_of_lt (by omega)]
        rw [hoffv, hszv]
      · rw [if_neg hij]
        have hoffv : getUint32 m2 (12 + j * 8) = getUint32 a.mem (12 + j * 8) := by
          rw [hm2, getUint32_setUint32_apart _ _ _ _ (by omega),
              getUint32_setUint32_apart _ _ _ _ (by omega)]
        have hszv : getUint32 m2 (12 + j * 8 + 4) = getUint32 a.mem (12 + j * 8 + 4) := by
          rw [hm2, getUint32_setUint32_apart _ _ _ _ (by omega),
              getUint32_setUint32_apart _ _ _ _ (by omega)]
        rw [hoffv, hszv]
        simp only [Alloc.freeList]
        rw [readBlocks_getElem _ _ _ (by rw [readBlocks_length]; exact h1)]
  · rw [hm2, getUint32_setUint32_apart _ _ _ _ (by omega),
        getUint32_setUint32_apart _ _ _ _ (by omega)]
  · rw [hm2, getUint32_setUint32_apart _ _ _ _ (by omega),
        getUint32_setUint32_apart _ _ _ _ (by omega)]
  · intro hstore
    exact byteStore_setUint32 _ _ _ (byteStore_setUint32 _ _ _ hstore)

theorem removeFreeBlock_spec (a : Alloc) (i n : Nat)
    (hn : getUint32 a.mem 4 = n) (hi : i < n) (hn32 : n < 4294967296)
    (hstore : ByteStore a.mem) :
    getUint32 (a.removeFreeBlock i).mem 4 = n - 1 ∧
    (a.removeFreeBlock i).freeList
      = ((a.freeList).set i ((a.freeList).getD (n - 1) ⟨0, 0⟩)).take (n - 1) ∧
    getUint32 (a.removeFreeBlock i).mem 0 = getUint32 a.mem 0 ∧
    getUint32 (a.removeFreeBlock i).mem 8 = getUint32 a.mem 8 ∧
    (a.removeFreeBlock i).len = a.len ∧
    (a.removeFreeBlock i).maxFreeBlocks = a.maxFreeBlocks ∧
    (a.removeFreeBlock i).structures = a.structures ∧
    (a.removeFreeBlock i).nextId = a.nextId ∧
    ByteStore (a.removeFreeBlock i).mem := by
  have hlast : (a.freeList).getD (n - 1) (⟨0, 0⟩ : MemoryBlockRef)
      = ⟨getUint32 a.mem (12 + (n - 1) * 8), getUint32 a.mem (12 + (n - 1) * 8 + 4)⟩ := by
    have hlen : n - 1 < (a.freeList).length := by
      simp [Alloc.freeList, readBlocks_length, hn]
      omega
    rw [List.getD_eq_getElem _ _ hlen]
    simp only [Alloc.freeList]
    rw [readBlocks_getElem _ _ _ (by rw [readBlocks_length, hn]; omega)]
  by_cases hlt : i < n - 1
  · have hmem : (a.removeFreeBlock i).mem
        = setUint32 (setUint32 (setUint32 a.mem 4 (n - 1)) (12 + i * 8)
            (getUint32 a.mem (12 + (n - 1) * 8))) (12 + i * 8 + 4)
            (getUint32 a.mem (12 + (n - 1) * 8 + 4)) := by
      have e1 : getUint32 (setUint32 a.mem 4 (n - 1)) (12 + (n - 1) * 8)
          = getUint32 a.mem (12 + (n - 1) * 8) :=
        getUint32_setUint32_apart _ _ _ _ (by omega)
      have e2 : getUint32 (setUint32 (setUint32 a.mem 4 (n - 1)) (12 + i * 8)
            (getUint32 a.mem (12 + (n - 1) * 8))) (12 + (n - 1) * 8 + 4)
          = getUint32 a.mem (12 + (n - 1) * 8 + 4) := by
        rw [getUint32_setUint32_apart _ _ _ _ (by omega),
            getUint32_setUint32_apart _ _ _ _ (by omega)]
      simp only [Alloc.removeFreeBlock, hn]
      rw [if_pos hlt, e1, e2]
    have hc4 : getUint32 (a.removeFreeBlock i).mem 4 = n - 1 := by
      rw [hmem, getUint32_setUint32_apart _ _ _ _ (by omega),
          getUint32_setUint32_apart _ _ _ _ (by omega),
          getUint32_setUint32_same, Nat.mod_eq_of_lt (by omega)]
    refine ⟨hc4, ?_, ?_, ?_, rfl, rfl, rfl, rfl, ?_⟩
    · show readBlocks (a.removeFreeBlock i).mem (getUint32 (a.removeFreeBlock i).mem 4) = _
      rw [hc4]
      apply List.ext_getElem
      · rw [readBlocks_length, List.length_take, List.length_set]
        simp [Alloc.freeList, readBlocks_length, hn]
      · intro j h1 h2
        rw [readBlocks_length] at h1
        rw [readBlocks_getElem _ _ _ (by rw [readBlocks_length]; exact h1)]
        rw [List.getElem_take, List.getElem_set]
        by_cases hij : i = j
        · subst hij
          rw [if_pos rfl, hlast]
          have hoffv : getUint32 (a.removeFreeBlock i).mem (12 + i * 8)
              = getUint32 a.mem (12 + (n - 1) * 8) := by
            rw [hmem, getUint32_setUint32_apart _ _ _ _ (by omega),
                getUint32_setUint32_same,
                Nat.mod_eq_of_lt (getUint32_lt a.mem hstore _)]
          have hszv : getUint32 (a.removeFreeBlock i).mem (12 + i * 8 + 4)
              = getUint32 a.mem (12 + (n - 1) * 8 + 4) := by
            rw [hmem, getUint32_setUint32_same,
                Nat.mod_eq_of_lt (getUint32_lt a.mem hstore _)]
          rw [hoffv, hszv]
        · rw [if_neg hij]
          have hoffv : getUint32 (a.removeFreeBlock i).mem (12 + j * 8)
              = getUint32 a.mem (12 + j * 8) := by
            rw [hmem, getUint32_setUint32_apart _ _ _ _ (by omega),
                getUint32_setUint32_apart _ _ _ _ (by omega),
                getUint32_setUint32_apart _ _ _ _ (by omega)]
          have hszv : getUint32 (a.removeFreeBlock i).mem (12 + j * 8 + 4)
              = getUint32 a.mem (12 + j * 8 + 4) := by
            rw [hmem, getUint32_setUint32_apart _ _ _ _ (by omega),
                getUint32_setUint32_apart _ _ _ _ (by omega),
                getUint32_setUint32_apart _ _ _ _ (by omega)]
          rw [hoffv, hszv]
          simp only [Alloc.freeList]
          rw [readBlocks_getElem _ _ _ (by rw [readBlocks_length, hn]; omega)]
    · rw [hmem, getUint32_setUint32_apart _ _ _ _ (by omega),
          getUint32_setUint32_apart _ _ _ _ (by omega),
          getUint32_setUint32_apart _ _ _ _ (by omega)]
    · rw [hmem, getUint32_setUint32_apart _ _ _ _ (by omega),
          getUint32_setUint32_apart _ _ _ _ (by omega),
          getUint32_setUint32_apart _ _ _ _ (by omega)]
    · rw [hmem]
      exact byteStore_setUint32 _ _ _ (byteStore_setUint32 _ _ _
        (byteStore_setUint32 _ _ _ hstore))
  · have hieq : i = n - 1 := by omega
    have hmem : (a.removeFreeBlock i).mem = setUint32 a.mem 4 (n - 1) := by
      simp only [Alloc.removeFreeBlock, hn]
      rw [if_neg hlt]
    have hc4 : getUint32 (a.removeFreeBlock i).mem 4 = n - 1 := by
      rw [hmem, getUint32_setUint32_same, Nat.mod_eq_of_lt (by omega)]
    refine ⟨hc4, ?_, ?_, ?_, rfl, rfl, rfl, rfl, ?_⟩
    · show readBlocks (a.removeFreeBlock i).mem (getUint32 (a.removeFreeBlock i).mem 4) = _
      rw [hc4]
      apply List.ext_getElem
      · rw [readBlocks_length, List.length_take, List.length_set]
        simp [Alloc.freeList, readBlocks_length, hn]
      · intro j h1 h2
        rw [readBlocks_length] at h1
        rw [readBlocks_getElem _ _ _ (by rw [readBlocks_length]; exact h1)]
        rw [List.getElem_take, List.getElem_set]
        rw [if_neg (by omega)]
        have hoffv : getUint32 (a.removeFreeBlock i).mem (12 + j * 8)
            = getUint32 a.mem (12 + j * 8) := by
          rw [hmem, getUint32_setUint32_apart _ _ _ _ (by omega)]
        have hszv : getUint32 (a.removeFreeBlock i).mem (12 + j * 8 + 4)
            = getUint32 a.mem (12 + j * 8 + 4) := by
          rw [hmem, getUint32_setUint32_apart _ _ _ _ (by omega)]
        rw [hoffv, hszv]
        simp only [Alloc.freeList]
        rw [readBlocks_getElem _ _ _ (by rw [readBlocks_length, hn]; omega)]
    · rw [hmem, getUint32_setUint32_apart _ _ _ _ (by omega)]
    · rw [hmem, getUint32_setUint32_apart _ _ _ _ (by omega)]
    · rw [hmem]
      exact byteStore_setUint32 _ _ _ hstore

theorem allocate_exact_spec (a : Alloc) (size i bo bs : Nat)
    (hfind : findFreeBlock a.mem size (List.range (getUint32 a.mem 4)) = some (i, bo, bs))
    (hrem : bs ≤ size) (hstore : ByteStore a.mem) :
    ∃ a1, a.allocate size = .ok (⟨bo, size⟩, a1) ∧
      getUint32 a1.mem 4 = getUint32 a.mem 4 - 1 ∧
      a1.freeList = ((a.freeList).set i
        ((a.freeList).getD (getUint32 a.mem 4 - 1) ⟨0, 0⟩)).take (getUint32 a.mem 4 - 1) ∧
      getUint32 a1.mem 0 = getUint32 a.mem 0 ∧
      getUint32 a1.mem 8 = getUint32 a.mem 8 ∧
      a1.len = a.len ∧ a1.maxFreeBlocks = a.maxFreeBlocks ∧
      a1.structures = a.structures ∧ a1.nextId = a.nextId ∧
      ByteStore a1.mem := by
  obtain ⟨hmem_i, hbo, hbs, hsz⟩ := findFreeBlock_some_spec a.mem size _ i bo bs hfind
  have hi : i < getUint32 a.mem 4 := List.mem_range.mp hmem_i
  have hn32 : getUint32 a.mem 4 < 4294967296 := getUint32_lt a.mem hstore 4
  obtain ⟨hc4, hfl, hc0, hc8, hlen, hmax, hstrs, hnid, hbytes⟩ :=
    removeFreeBlock_spec a i (getUint32 a.mem 4) rfl hi hn32 hstore
  refine ⟨a.removeFreeBlock i, ?_, hc4, hfl, hc0, hc8, hlen, hmax, hstrs, hnid, hbytes⟩
  simp only [Alloc.allocate, hfind]
  rw [if_neg (by omega)]

theorem allocate_bump_spec (a : Alloc) (size : Nat)
    (hfind : findFreeBlock a.mem size (List.range (getUint32 a.mem 4)) = none)
    (hreg : getUint32 a.mem 8 = 0)
    (htable : 12 + a.maxFreeBlocks * 8 ≤ a.len)
    (hcnt : getUint32 a.mem 4 ≤ a.maxFreeBlocks)
    (hov : getUint32 a.mem 0 + size < 4294967296) :
    ∃ a1, a.allocate size = .ok (⟨getUint32 a.mem 0, size⟩, a1) ∧
      getUint32 a1.mem 0 = getUint32 a.mem 0 + size ∧
      getUint32 a1.mem 4 = getUint32 a.mem 4 ∧
      getUint32 a1.mem 8 = 0 ∧
      a1.freeList = a.freeList ∧
      (getUint32 a.mem 0 + size ≤ a.len → a1.len = a.len) ∧
      (a.len < getUint32 a.mem 0 + size → a1.len = a.len * 2) ∧
      a.len ≤ a1.len ∧
      a1.maxFreeBlocks = a.maxFreeBlocks ∧ a1.structures = a.structures ∧
      a1.nextId = a.nextId ∧
      (ByteStore a.mem → ByteStore a1.mem) := by
  rcases Nat.lt_or_ge a.len (getUint32 a.mem 0 + size) with hgt | hle
  · set mcopy : Mem := fun i => if i < a.len then a.mem i else 0 with hmcopy
    set s : Alloc := { a with mem := mcopy, len := a.len * 2 } with hs
    have hexp : a.expandBuffer = .ok s := by
      apply restoreStructures_of_zero
      show getUint32 mcopy 8 = 0
      rw [hmcopy, getUint32_copyExpand _ _ _ (by omega), hreg]
    have hbump_s : getUint32 s.mem 0 = getUint32 a.mem 0 := by
      show getUint32 mcopy 0 = getUint32 a.mem 0
      rw [hmcopy, getUint32_copyExpand _ _ _ (by omega)]
    have h1 : a.allocate size
        = .ok (⟨getUint32 s.mem 0, size⟩,
            { s with mem := setUint32 s.mem 0 (getUint32 s.mem 0 + size) }) := by
      simp only [Alloc.allocate, hfind]
      rw [if_pos hgt, hexp]
      rfl
    rw [hbump_s] at h1
    refine ⟨_, h1, ?_, ?_, ?_, ?_, ?_, ?_, ?_, rfl, rfl, rfl, ?_⟩
    · show getUint32 (setUint32 s.mem 0 (getUint32 a.mem 0 + size)) 0 = _
      rw [getUint32_setUint32_same, Nat.mod_eq_of_lt hov]
    · show getUint32 (setUint32 s.mem 0 (getUint32 a.mem 0 + size)) 4 = _
      rw [getUint32_setUint32_apart _ _ _ _ (by omega)]
      show getUint32 mcopy 4 = _
      rw [hmcopy, getUint32_copyExpand _ _ _ (by omega)]
    · show getUint32 (setUint32 s.mem 0 (getUint32 a.mem 0 + size)) 8 = 0
      rw [getUint32_setUint32_apart _ _ _ _ (by omega)]
      show getUint32 mcopy 8 = 0
      rw [hmcopy, getUint32_copyExpand _ _ _ (by omega), hreg]
    · show readBlocks (setUint32 s.mem 0 (getUint32 a.mem 0 + size))
          (getUint32 (setUint32 s.mem 0 (getUint32 a.mem 0 + size)) 4) = a.freeList
      have hc4 : getUint32 (setUint32 s.mem 0 (getUint32 a.mem 0 + size)) 4
          = getUint32 a.mem 4 := by
        rw [getUint32_setUint32_apart _ _ _ _ (by omega)]
        show getUint32 mcopy 4 = _
        rw [hmcopy, getUint32_copyExpand _ _ _ (by omega)]
      rw [hc4, readBlocks_setUint32_apart _ _ _ _ (by omega)]
      show readBlocks mcopy (getUint32 a.mem 4) = _
      rw [hmcopy, readBlocks_copyExpand _ _ _ (by omega)]
      rfl
    · intro h
      omega
    · intro _
      rfl
    · show a.len ≤ a.len * 2
      omega
    · intro hstore
      show ByteStore (setUint32 s.mem 0 (getUint32 a.mem 0 + size))
      apply byteStore_setUint32
      show ByteStore mcopy
      rw [hmcopy]
      exact byteStore_copyExpand a.mem a.len hstore
  · have h1 : a.allocate size
        = .ok (⟨getUint32 a.mem 0, size⟩,
            { a with mem := setUint32 a.mem 0 (getUint32 a.mem 0 + size) }) := by
      simp only [Alloc.allocate, hfind]
      rw [if_neg (by omega)]
      rfl
    refine ⟨_, h1, ?_, ?_, ?_, ?_, ?_, ?_, ?_, rfl, rfl, rfl, ?_⟩
    · show getUint32 (setUint32 a.mem 0 (getUint32 a.mem 0 + size)) 0 = _
      rw [getUint32_setUint32_same, Nat.mod_eq_of_lt hov]
    · show getUint32 (setUint32 a.mem 0 (getUint32 a.mem 0 + size)) 4 = _
      rw [getUint32_setUint32_apart _ _ _ _ (by omega)]
    · show getUint32 (setUint32 a.mem 0 (getUint32 a.mem 0 + size)) 8 = _
      rw [getUint32_setUint32_apart _ _ _ _ (by omega), hreg]
    · show readBlocks (setUint32 a.mem 0 (getUint32 a.mem 0 + size))
          (getUint32 (setUint32 a.mem 0 (getUint32 a.mem 0 + size)) 4) = a.freeList
      have hc4 : getUint32 (setUint32 a.mem 0 (getUint32 a.mem 0 + size)) 4
          = getUint32 a.mem 4 := getUint32_setUint32_apart _ _ _ _ (by omega)
      rw [hc4, readBlocks_setUint32_apart _ _ _ _ (by omega)]
      rfl
    · intro _
      rfl
    · intro h
      omega
    · show a.len ≤ a.len
      omega
    · intro hstore
      exact byteStore_setUint32 _ _ _ hstore

theorem disj_sub (e b c : MemoryBlockRef)
    (h1 : e.offset ≤ b.offset) (h2 : b.offset + b.size ≤ e.offset + e.size)
    (h : c.disjoint e) : c.disjoint b := by
  unfold MemoryBlockRef.disjoint at h ⊢
  omega

theorem disjoint_not_overlap (b c : MemoryBlockRef) (x : Nat)
    (h : b.disjoint c) (hb : b.inRange x) (hc : c.inRange x) : False := by
  unfold MemoryBlockRef.disjoint at h
  unfold MemoryBlockRef.inRange at hb hc
  omega

theorem not_disjoint_overlap (b c : MemoryBlockRef)
    (hb : 0 < b.size) (hc : 0 < c.size) (h : ¬ b.disjoint c) :
    ∃ x, b.inRange x ∧ c.inRange x := by
  unfold MemoryBlockRef.disjoint at h
  refine ⟨if b.offset ≤ c.offset then c.offset else b.offset, ?_, ?_⟩
  · unfold MemoryBlockRef.inRange
    split <;> omega
  · unfold MemoryBlockRef.inRange
    split <;> omega

theorem pairwise_disjoint_getElem_ne (L : List MemoryBlockRef)
    (hP : L.Pairwise MemoryBlockRef.disjoint) :
    ∀ p q (hp : p < L.length) (hq : q < L.length), p ≠ q → L[p].disjoint L[q] := by
  intro p q hp hq hpq
  rcases Nat.lt_or_ge p q with h | h
  · exact List.pairwise_iff_getElem.mp hP p q hp hq h
  · exact disjoint_symm _ _ (List.pairwise_iff_getElem.mp hP q p hq hp (by omega))

/-- The allocator invariant maintained along every API-respecting sequence of
allocate and free calls: all live blocks and free-table entries are nonempty
ranges below the bump offset, pairwise disjoint, the table counters are in
range, and no structures are registered. -/
structure ArenaInv (a : Alloc) (live : List MemoryBlockRef) : Prop where
  bytes : ByteStore a.mem
  tableFits : 12 + a.maxFreeBlocks * 8 ≤ a.len
  maxSmall : 12 + a.maxFreeBlocks * 8 < 4294967296
  regCount : getUint32 a.mem 8 = 0
  countLe : getUint32 a.mem 4 ≤ a.maxFreeBlocks
  liveBounds : ∀ b ∈ live, 0 < b.size ∧ b.offset + b.size ≤ getUint32 a.mem 0
  freeBounds : ∀ e ∈ a.freeList, 0 < e.size ∧ e.offset + e.size ≤ getUint32 a.mem 0
  disj : (live ++ a.freeList).Pairwise MemoryBlockRef.disjoint

/-- API-respecting executions of the allocator: starting from a fresh
Allocator whose free-block table fits in the initial buffer, any sequence of
allocate calls with positive sizes that keep the bump offset below 2^32
(no 32-bit wraparound), and free calls that release a currently live block
exactly once.  The list collects the live (not yet freed) blocks. -/
inductive Legal : Alloc → List MemoryBlockRef → Prop where
  | init (initialBufferSize maxFreeBlocks : Nat)
      (hsize : 12 + maxFreeBlocks * 8 ≤ initialBufferSize)
      (hsmall : 12 + maxFreeBlocks * 8 < 4294967296) :
      Legal (Allocator.new initialBufferSize maxFreeBlocks) []
  | alloc (a a1 : Alloc) (live : List MemoryBlockRef) (size : Nat) (b : MemoryBlockRef)
      (h : Legal a live) (hs : 0 < size)
      (hov : getUint32 a.mem 0 + size < 4294967296)
      (he : a.allocate size = .ok (b, a1)) : Legal a1 (b :: live)
  | free (a a1 : Alloc) (live : List MemoryBlockRef) (b : MemoryBlockRef)
      (h : Legal a live) (hb : b ∈ live) (he : a.free b = .ok a1) :
      Legal a1 (live.erase b)

theorem inv_init (s M : Nat) (h1 : 12 + M * 8 ≤ s) (h2 : 12 + M * 8 < 4294967296) :
    ArenaInv (Allocator.new s M) [] := by
  have hmem : (Allocator.new s M).mem
      = setUint32 (setUint32 (setUint32 (fun _ => 0) 0 (12 + M * 8)) 4 0) 8 0 := rfl
  have hc4 : getUint32 (Allocator.new s M).mem 4 = 0 := by
    rw [hmem, getUint32_setUint32_apart _ _ _ _ (by omega), getUint32_setUint32_same]
  have hfl : (Allocator.new s M).freeList = [] := by
    show readBlocks _ (getUint32 (Allocator.new s M).mem 4) = []
    rw [hc4]
    rfl
  refine ⟨?_, h1, h2, ?_, ?_, ?_, ?_, ?_⟩
  · rw [hmem]
    exact byteStore_setUint32 _ _ _ (byteStore_setUint32 _ _ _
      (byteStore_setUint32 _ _ _ byteStore_zero))
  · rw [hmem, getUint32_setUint32_same]
  · rw [hc4]
    omega
  · intro b hb
    simp at hb
  · intro e he
    rw [hfl] at he
    simp at he
  · rw [hfl]
    simp

theorem pairwise_disjoint_split_set (live FL : List MemoryBlockRef) (i : Nat)
    (hi : i < FL.length) (bo bs size : Nat)
    (hentry : FL.get ⟨i, hi⟩ = (⟨bo, bs⟩ : MemoryBlockRef)) (hsz : size ≤ bs)
    (hP : (live ++ FL).Pairwise MemoryBlockRef.disjoint) :
    ((⟨bo, size⟩ : MemoryBlockRef) :: (live ++ FL.set i ⟨bo + size, bs - size⟩)).Pairwise
      MemoryBlockRef.disjoint := by
  have hD := pairwise_disjoint_getElem_ne _ hP
  have hgetFL : ∀ j (hj : j < FL.length) (hj2 : live.length + j < (live ++ FL).length),
      (live ++ FL)[live.length + j] = FL[j] := by
    intro j hj hj2
    rw [List.getElem_append_right (by omega)]
    congr 1
    omega
  have hEi : FL[i] = (⟨bo, bs⟩ : MemoryBlockRef) := hentry
  have hDi : ∀ p (hp : p < live.length + FL.length) (hp2 : p < (live ++ FL).length),
      p ≠ live.length + i →
      ((live ++ FL)[p]).disjoint (⟨bo, bs⟩ : MemoryBlockRef) := by
    intro p hp hp2 hne
    have := hD p (live.length + i) hp2 (by simp; omega) hne
    rw [hgetFL i hi (by simp; omega), hEi] at this
    exact this
  have hextract : ∀ r (hr : r < live.length + FL.length)
      (hr2 : r < (live ++ FL).length)
      (hr3 : r < (live ++ FL.set i ⟨bo + size, bs - size⟩).length),
      (live ++ FL.set i ⟨bo + size, bs - size⟩)[r]
        = if i = r - live.length ∧ live.length ≤ r then ⟨bo + size, bs - size⟩
          else (live ++ FL)[r] := by
    intro r hr hr2 hr3
    by_cases hrL : r < live.length
    · rw [List.getElem_append_left hrL, if_neg (by omega),
          List.getElem_append_left hrL]
    · rw [List.getElem_append_right (α := MemoryBlockRef) (by omega), List.getElem_set]
      by_cases hri : i = r - live.length
      · rw [if_pos hri, if_pos ⟨hri, by omega⟩]
      · rw [if_neg hri, if_neg (by tauto)]
        rw [List.getElem_append_right (α := MemoryBlockRef) (by omega : live.length ≤ r)]
  rw [List.pairwise_iff_getElem]
  intro p q hp hq hpq
  simp only [List.length_cons, List.length_append, List.length_set] at hp hq
  rcases p with _ | p <;> rcases q with _ | q
  · omega
  · rw [List.getElem_cons_zero, List.getElem_cons_succ]
    rw [hextract q (by omega) (by simp; omega) (by simp [List.length_set]; omega)]
    by_cases hqi : i = q - live.length ∧ live.length ≤ q
    · rw [if_pos hqi]
      exact Or.inl (by dsimp only; omega)
    · rw [if_neg hqi]
      have h2 := hDi q (by omega) (by simp; omega) (by omega)
      exact disjoint_symm _ _ (disj_sub _ _ _ (by dsimp only; omega)
        (by dsimp only; omega) h2)
  · omega
  · rw [List.getElem_cons_succ, List.getElem_cons_succ]
    rw [hextract p (by omega) (by simp; omega) (by simp [List.length_set]; omega)]
    rw [hextract q (by omega) (by simp; omega) (by simp [List.length_set]; omega)]
    by_cases hpi : i = p - live.length ∧ live.length ≤ p
    · rw [if_pos hpi]
      by_cases hqi : i = q - live.length ∧ live.length ≤ q
      · omega
      · rw [if_neg hqi]
        have h2 := hDi q (by omega) (by simp; omega) (by omega)
        exact disjoint_symm _ _ (disj_sub _ _ _ (by dsimp only; omega)
          (by dsimp only; omega) h2)
    · rw [if_neg hpi]
      by_cases hqi : i = q - live.length ∧ live.length ≤ q
      · rw [if_pos hqi]
        have h2 := hDi p (by omega) (by simp; omega) (by omega)
        exact disj_sub _ _ _ (by dsimp only; omega) (by dsimp only; omega) h2
      · rw [if_neg hqi]
        exact hD p q (by simp; omega) (by simp; omega) (by omega)

theorem pairwise_disjoint_swap_remove (live FL : List MemoryBlockRef) (i : Nat)
    (hi : i < FL.length) (bo bs : Nat)
    (hentry : FL.get ⟨i, hi⟩ = (⟨bo, bs⟩ : MemoryBlockRef))
    (hP : (live ++ FL).Pairwise MemoryBlockRef.disjoint) :
    ((⟨bo, bs⟩ : MemoryBlockRef)
      :: (live ++ (FL.set i (FL.getD (FL.length - 1) ⟨0, 0⟩)).take (FL.length - 1))).Pairwise
      MemoryBlockRef.disjoint := by
  have hD := pairwise_disjoint_getElem_ne _ hP
  have hgetFL : ∀ j (hj : j < FL.length) (hj2 : live.length + j < (live ++ FL).length),
      (live ++ FL)[live.length + j] = FL[j] := by
    intro j hj hj2
    rw [List.getElem_append_right (by omega)]
    congr 1
    omega
  have hEi : FL[i] = (⟨bo, bs⟩ : MemoryBlockRef) := hentry
  have hDi : ∀ p (hp : p < live.length + FL.length) (hp2 : p < (live ++ FL).length),
      p ≠ live.length + i →
      ((live ++ FL)[p]).disjoint (⟨bo, bs⟩ : MemoryBlockRef) := by
    intro p hp hp2 hne
    have := hD p (live.length + i) hp2 (by simp; omega) hne
    rw [hgetFL i hi (by simp; omega), hEi] at this
    exact this
  have hlen_take : ((FL.set i (FL.getD (FL.length - 1) ⟨0, 0⟩)).take (FL.length - 1)).length
      = FL.length - 1 := by
    rw [List.length_take, List.length_set]
    exact Nat.min_eq_left (by omega)
  have hextract : ∀ r (hr : r < live.length + (FL.length - 1))
      (hr2 : r < (live ++ FL).length)
      (hr3 : r < (live ++ (FL.set i (FL.getD (FL.length - 1) ⟨0, 0⟩)).take (FL.length - 1)).length),
      (live ++ (FL.set i (FL.getD (FL.length - 1) ⟨0, 0⟩)).take (FL.length - 1))[r]
        = if i = r - live.length ∧ live.length ≤ r then FL[FL.length - 1]
          else (live ++ FL)[r] := by
    intro r hr hr2 hr3
    by_cases hrL : r < live.length
    · rw [List.getElem_append_left hrL, if_neg (by omega),
          List.getElem_append_left hrL]
    · rw [List.getElem_append_right (α := MemoryBlockRef) (by omega : live.length ≤ r)]
      rw [List.getElem_take, List.getElem_set]
      by_cases hri : i = r - live.length
      · rw [if_pos hri, if_pos ⟨hri, by omega⟩]
        rw [List.getD_eq_getElem _ _ (by omega)]
      · rw [if_neg hri, if_neg (by tauto)]
        rw [List.getElem_append_right (α := MemoryBlockRef) (by omega : live.length ≤ r)]
  rw [List.pairwise_iff_getElem]
  intro p q hp hq hpq
  simp only [List.length_cons, List.length_append, hlen_take] at hp hq
  rcases p with _ | p <;> rcases q with _ | q
  · omega
  · rw [List.getElem_cons_zero, List.getElem_cons_succ]
    rw [hextract q (by omega) (by simp; omega) (by simp [hlen_take]; omega)]
    by_cases hqi : i = q - live.length ∧ live.length ≤ q
    · rw [if_pos hqi]
      have h2 := hD (live.length + i) (live.length + (FL.length - 1))
        (by simp; omega) (by simp; omega) (by omega)
      rw [hgetFL i hi (by simp; omega), hEi,
          hgetFL (FL.length - 1) (by omega) (by simp; omega)] at h2
      exact h2
    · rw [if_neg hqi]
      have h2 := hDi q (by omega) (by simp; omega) (by omega)
      exact disjoint_symm _ _ h2
  · omega
  · rw [List.getElem_cons_succ, List.getElem_cons_succ]
    rw [hextract p (by omega) (by simp; omega) (by simp [hlen_take]; omega)]
    rw [hextract q (by omega) (by simp; omega) (by simp [hlen_take]; omega)]
    by_cases hpi : i = p - live.length ∧ live.length ≤ p
    · rw [if_pos hpi]
      by_cases hqi : i = q - live.length ∧ live.length ≤ q
      · omega
      · rw [if_neg hqi]
        have h2 := hD (live.length + (FL.length - 1)) q
          (by simp; omega) (by simp; omega) (by omega)
        rw [hgetFL (FL.length - 1) (by omega) (by simp; omega)] at h2
        exact h2
    · rw [if_neg hpi]
      by_cases hqi : i = q - live.length ∧ live.length ≤ q
      · rw [if_pos hqi]
        have h2 := hD p (live.length + (FL.length - 1))
          (by simp; omega) (by simp; omega) (by omega)
        rw [hgetFL (FL.length - 1) (by omega) (by simp; omega)] at h2
        exact h2
      · rw [if_neg hqi]
        exact hD p q (by simp; omega) (by simp; omega) (by omega)

theorem inv_alloc (a a1 : Alloc) (live : List MemoryBlockRef) (size : Nat)
    (b : MemoryBlockRef) (hInv : ArenaInv a live) (hs : 0 < size)
    (hov : getUint32 a.mem 0 + size < 4294967296)
    (he : a.allocate size = .ok (b, a1)) : ArenaInv a1 (b :: live) := by
  have hbump32 : getUint32 a.mem 0 < 4294967296 := getUint32_lt a.mem hInv.bytes 0
  rcases hfind : findFreeBlock a.mem size (List.range (getUint32 a.mem 4)) with _ | ⟨i, bo, bs⟩
  · obtain ⟨a1x, heq, hb0, hb4, hb8, hbfl, himp1, himp2, hlenle, hbmax, hbstr, hbnid, hbbytes⟩ :=
      allocate_bump_spec a size hfind hInv.regCount hInv.tableFits hInv.countLe hov
    rw [heq] at he
    simp only [Except.ok.injEq, Prod.mk.injEq] at he
    obtain ⟨hbeq, haeq⟩ := he
    subst hbeq
    subst haeq
    refine ⟨hbbytes hInv.bytes, ?_, ?_, hb8, ?_, ?_, ?_, ?_⟩
    · rw [hbmax]
      exact Nat.le_trans hInv.tableFits hlenle
    · rw [hbmax]
      exact hInv.maxSmall
    · rw [hb4, hbmax]
      exact hInv.countLe
    · intro c hc
      rw [hb0]
      rcases List.mem_cons.mp hc with hc | hc
      · subst hc
        exact ⟨hs, by dsimp only; omega⟩
      · have := hInv.liveBounds c hc
        exact ⟨this.1, by omega⟩
    · intro e he2
      rw [hbfl] at he2
      have := hInv.freeBounds e he2
      rw [hb0]
      exact ⟨this.1, by omega⟩
    · rw [hbfl, List.cons_append]
      rw [List.pairwise_cons]
      refine ⟨?_, hInv.disj⟩
      intro y hy
      have hyb : y.offset + y.size ≤ getUint32 a.mem 0 := by
        rcases List.mem_append.mp hy with hy | hy
        · exact (hInv.liveBounds y hy).2
        · exact (hInv.freeBounds y hy).2
      exact Or.inr (by dsimp only; omega)
  · obtain ⟨hmem_i, hbo_eq, hbs_eq, hsz⟩ := findFreeBlock_some_spec a.mem size _ i bo bs hfind
    have hi : i < getUint32 a.mem 4 := List.mem_range.mp hmem_i
    have hilen : i < a.freeList.length := by
      simp only [Alloc.freeList, readBlocks_length]
      exact hi
    have hentry : a.freeList.get ⟨i, hilen⟩ = (⟨bo, bs⟩ : MemoryBlockRef) := by
      show a.freeList[i] = _
      simp only [Alloc.freeList]
      rw [readBlocks_getElem _ _ _ (by rw [readBlocks_length]; exact hi), hbo_eq, hbs_eq]
    have hmem_fl : (⟨bo, bs⟩ : MemoryBlockRef) ∈ a.freeList := by
      rw [← hentry]
      exact List.get_mem _ _ hilen
    have hbsb := hInv.freeBounds _ hmem_fl
    have hbsb1 : 0 < bs := by
      have := hbsb.1
      simpa using this
    have hbsb2 : bo + bs ≤ getUint32 a.mem 0 := by
      have := hbsb.2
      simpa using this
    rcases Nat.lt_or_ge size bs with hlt | hge
    · obtain ⟨a1x, heq, hfl1, hc4, hc0, hc8, hlen1, hmax1, hstr1, hnid1, hbytes1⟩ :=
        allocate_split_spec a size i bo bs hfind hlt (by omega) (by omega)
      rw [heq] at he
      simp only [Except.ok.injEq, Prod.mk.injEq] at he
      obtain ⟨hbeq, haeq⟩ := he
      subst hbeq
      subst haeq
      refine ⟨hbytes1 hInv.bytes, ?_, ?_, ?_, ?_, ?_, ?_, ?_⟩
      · rw [hmax1, hlen1]
        exact hInv.tableFits
      · rw [hmax1]
        exact hInv.maxSmall
      · rw [hc8]
        exact hInv.regCount
      · rw [hc4, hmax1]
        exact hInv.countLe
      · intro c hc
        rw [hc0]
        rcases List.mem_cons.mp hc with hc | hc
        · subst hc
          exact ⟨hs, by dsimp only; omega⟩
        · exact hInv.liveBounds c hc
      · intro e he2
        rw [hfl1] at he2
        rw [hc0]
        rcases List.mem_or_eq_of_mem_set he2 with he2 | he2
        · exact hInv.freeBounds e he2
        · subst he2
          exact ⟨by dsimp only; omega, by dsimp only; omega⟩
      · rw [hfl1, List.cons_append]
        exact pairwise_disjoint_split_set live a.freeList i hilen bo bs size hentry
          (by omega) hInv.disj
    · obtain ⟨a1x, heq, hc4, hfl1, hc0, hc8, hlen1, hmax1, hstr1, hnid1, hbytes1⟩ :=
        allocate_exact_spec a size i bo bs hfind hge hInv.bytes
      rw [heq] at he
      simp only [Except.ok.injEq, Prod.mk.injEq] at he
      obtain ⟨hbeq, haeq⟩ := he
      subst hbeq
      subst haeq
      have hflen : a.freeList.length = getUint32 a.mem 4 := by
        simp only [Alloc.freeList, readBlocks_length]
      have hsize_bs : size = bs := by omega
      refine ⟨hbytes1, ?_, ?_, ?_, ?_, ?_, ?_, ?_⟩
      · rw [hmax1, hlen1]
        exact hInv.tableFits
      · rw [hmax1]
        exact hInv.maxSmall
      · rw [hc8]
        exact hInv.regCount
      · rw [hc4, hmax1]
        exact Nat.le_trans (Nat.sub_le _ _) hInv.countLe
      · intro c hc
        rw [hc0]
        rcases List.mem_cons.mp hc with hc | hc
        · subst hc
          exact ⟨hs, by dsimp only; omega⟩
        · exact hInv.liveBounds c hc
      · intro e he2
        rw [hfl1] at he2
        rw [hc0]
        have he3 := List.mem_of_mem_take he2
        rcases List.mem_or_eq_of_mem_set he3 with he3 | he3
        · exact hInv.freeBounds e he3
        · subst he3
          have hn1 : getUint32 a.mem 4 - 1 < a.freeList.length := by
            rw [hflen]
            omega
          rw [List.getD_eq_getElem _ _ hn1]
          exact hInv.freeBounds _ (List.getElem_mem hn1)
      · rw [hfl1, List.cons_append, hsize_bs, ← hflen]
        exact pairwise_disjoint_swap_remove live a.freeList i hilen bo bs hentry hInv.disj

theorem free_full (a : Alloc) (b : MemoryBlockRef)
    (h : a.maxFreeBlocks ≤ getUint32 a.mem 4) :
    a.free b = .error "Free block list is full" := by
  unfold Alloc.free
  rw [if_pos h]

theorem inv_free (a a1 : Alloc) (live : List MemoryBlockRef) (b : MemoryBlockRef)
    (hInv : ArenaInv a live) (hb : b ∈ live) (he : a.free b = .ok a1) :
    ArenaInv a1 (live.erase b) ∧
    a1.freeList = mergeBlocks (sortByOffset (a.freeList ++ [b])) ∧
    getUint32 a1.mem 4 = (mergeBlocks (sortByOffset (a.freeList ++ [b]))).length ∧
    a1.freeList.Pairwise sepLT := by
  have hbump32 : getUint32 a.mem 0 < 4294967296 := getUint32_lt a.mem hInv.bytes 0
  have hcnt : getUint32 a.mem 4 < a.maxFreeBlocks := by
    by_contra hcon
    rw [free_full a b (by omega)] at he
    exact absurd he (by simp)
  have hbb := hInv.liveBounds b hb
  have hperm : (live ++ a.freeList).Perm (live.erase b ++ (a.freeList ++ [b])) := by
    have h1 : (live ++ a.freeList).Perm ((b :: live.erase b) ++ a.freeList) :=
      List.Perm.append_right _ (List.perm_cons_erase hb)
    have h3 : ((b :: live.erase b) ++ a.freeList).Perm
        ((live.erase b ++ a.freeList) ++ [b]) := by
      rw [List.cons_append]
      exact @List.perm_append_comm _ [b] (live.erase b ++ a.freeList)
    have h4 : ((live.erase b ++ a.freeList) ++ [b])
        = live.erase b ++ (a.freeList ++ [b]) := List.append_assoc _ _ _
    exact h1.trans (h4 ▸ h3)
  have P0 : (live.erase b ++ (a.freeList ++ [b])).Pairwise MemoryBlockRef.disjoint :=
    pairwise_disjoint_perm _ _ hperm hInv.disj
  have pos0 : ∀ e ∈ a.freeList ++ [b], 0 < e.size := by
    intro e he2
    rcases List.mem_append.mp he2 with h | h
    · exact (hInv.freeBounds e h).1
    · simp at h
      subst h
      exact hbb.1
  have bound0 : ∀ e ∈ a.freeList ++ [b], e.offset + e.size ≤ getUint32 a.mem 0 := by
    intro e he2
    rcases List.mem_append.mp he2 with h | h
    · exact (hInv.freeBounds e h).2
    · simp at h
      subst h
      exact hbb.2
  have hSperm : (sortByOffset (a.freeList ++ [b])).Perm (a.freeList ++ [b]) :=
    sortByOffset_perm _
  have hSdisj : (sortByOffset (a.freeList ++ [b])).Pairwise MemoryBlockRef.disjoint :=
    pairwise_disjoint_perm _ _ hSperm.symm (List.pairwise_append.mp P0).2.1
  have hSpos : ∀ e ∈ sortByOffset (a.freeList ++ [b]), 0 < e.size :=
    fun e he2 => pos0 e (hSperm.mem_iff.mp he2)
  have hSbound : ∀ e ∈ sortByOffset (a.freeList ++ [b]),
      e.offset + e.size ≤ getUint32 a.mem 0 :=
    fun e he2 => bound0 e (hSperm.mem_iff.mp he2)
  have hH : (sortByOffset (a.freeList ++ [b])).Pairwise endLE :=
    sorted_disjoint_endLE _ (sortByOffset_sorted _) hSdisj hSpos
  have hMpair : (mergeBlocks (sortByOffset (a.freeList ++ [b]))).Pairwise sepLT :=
    mergeBlocks_pairwise _ hH
  have hMpos : ∀ e ∈ mergeBlocks (sortByOffset (a.freeList ++ [b])), 0 < e.size :=
    mergeBlocks_size_pos _ hSpos
  have hMcov : ∀ x, covers (mergeBlocks (sortByOffset (a.freeList ++ [b]))) x
      ↔ covers (a.freeList ++ [b]) x := by
    intro x
    rw [mergeBlocks_covers _ hH x]
    exact covers_perm _ _ hSperm x
  have hMbound : ∀ e ∈ mergeBlocks (sortByOffset (a.freeList ++ [b])),
      e.offset + e.size ≤ getUint32 a.mem 0 := by
    intro e he2
    have hpos := hMpos e he2
    have hcovx : covers (mergeBlocks (sortByOffset (a.freeList ++ [b])))
        (e.offset + e.size - 1) := ⟨e, he2, by unfold MemoryBlockRef.inRange; omega⟩
    rw [hMcov] at hcovx
    obtain ⟨f, hf, hfx⟩ := hcovx
    have := bound0 f hf
    unfold MemoryBlockRef.inRange at hfx
    omega
  have hMfields : ∀ e ∈ mergeBlocks (sortByOffset (a.freeList ++ [b])),
      e.offset < 4294967296 ∧ e.size < 4294967296 := by
    intro e he2
    have h1 := hMbound e he2
    constructor <;> omega
  have hmax32 : a.maxFreeBlocks < 4294967296 := by
    have := hInv.maxSmall
    omega
  obtain ⟨a1x, heq, hfl, hc4, hc0, hc8, hlen, hmaxf, hstr, hnid, hbytes⟩ :=
    free_spec a b hcnt hmax32 (by omega) (by omega) hMfields
  rw [heq] at he
  simp only [Except.ok.injEq] at he
  subst he
  have hmlen : (mergeBlocks (sortByOffset (a.freeList ++ [b]))).length
      ≤ getUint32 a.mem 4 + 1 := by
    have h1 := mergeBlocks_length (sortByOffset (a.freeList ++ [b]))
    have h2 := hSperm.length_eq
    have h3 : (a.freeList ++ [b]).length = getUint32 a.mem 4 + 1 := by
      simp [Alloc.freeList, readBlocks_length]
    omega
  refine ⟨⟨hbytes hInv.bytes, ?_, ?_, ?_, ?_, ?_, ?_, ?_⟩, hfl, hc4, by rw [hfl]; exact hMpair⟩
  · rw [hmaxf, hlen]
    exact hInv.tableFits
  · rw [hmaxf]
    exact hInv.maxSmall
  · rw [hc8]
    exact hInv.regCount
  · rw [hc4, hmaxf]
    omega
  · intro c hc
    rw [hc0]
    exact hInv.liveBounds c (List.mem_of_mem_erase hc)
  · intro e he2
    rw [hfl] at he2
    rw [hc0]
    exact ⟨hMpos e he2, hMbound e he2⟩
  · rw [hfl, List.pairwise_append]
    refine ⟨?_, ?_, ?_⟩
    · exact List.Pairwise.sublist (List.erase_sublist _ _)
        (List.pairwise_append.mp hInv.disj).1
    · exact hMpair.imp (fun h => Or.inl (Nat.le_of_lt h))
    · intro c hc e he2
      by_contra hnd
      have hcpos := (hInv.liveBounds c (List.mem_of_mem_erase hc)).1
      have hepos := hMpos e he2
      obtain ⟨x, hcx, hex⟩ := not_disjoint_overlap c e hcpos hepos hnd
      have hcov : covers (mergeBlocks (sortByOffset (a.freeList ++ [b]))) x :=
        ⟨e, he2, hex⟩
      rw [hMcov] at hcov
      obtain ⟨f, hf, hfx⟩ := hcov
      have hdisj_cf : c.disjoint f := (List.pairwise_append.mp P0).2.2 c hc f hf
      exact disjoint_not_overlap c f x hdisj_cf hcx hfx

theorem legal_inv (a : Alloc) (live : List MemoryBlockRef) (h : Legal a live) :
    ArenaInv a live := by
  induction h with
  | init s M h1 h2 => exact inv_init s M h1 h2
  | alloc a a1 live size b h hs hov he ih => exact inv_alloc a a1 live size b ih hs hov he
  | free a a1 live b h hb he ih => exact (inv_free a a1 live b ih hb he).1

theorem byteStore_new (s M : Nat) : ByteStore (Allocator.new s M).mem :=
  byteStore_setUint32 _ _ _ (byteStore_setUint32 _ _ _
    (byteStore_setUint32 _ _ _ byteStore_zero))

theorem legal_w1 : Legal w1.2 [w1.1] := by
  refine Legal.alloc w0 w1.2 [] 100 w1.1 ?_ (by decide) (by decide) rfl
  exact Legal.init 1024 100 (by decide) (by decide)

theorem legal_w2 : Legal w2.2 [w2.1, w1.1] :=
  Legal.alloc w1.2 w2.2 [w1.1] 50 w2.1 legal_w1 (by decide) (by decide) rfl

theorem legal_w3 : Legal w3 ([w2.1, w1.1].erase w1.1) :=
  Legal.free w2.2 w3 [w2.1, w1.1] w1.1 legal_w2 (by decide) rfl

/-- C2 (counterexample): the claim as stated is false.  Both allocation sizes
are positive and no block is ever freed, so the sequence respects the API,
yet the two concurrently-live returned blocks overlap: allocate(4294967296)
wraps the stored 32-bit bump offset (setUint32 truncates 812 + 2^32 back to
812), so the following allocate(16) returns a block starting at the same
offset 812 inside the first block's range. -/
theorem C2_counterexample :
    ∃ b1 a1 b2 a2,
      (Allocator.new 1024 100).allocate 4294967296 = Except.ok (b1, a1) ∧
      a1.allocate 16 = Except.ok (b2, a2) ∧
      0 < 4294967296 ∧ 0 < 16 ∧
      ¬ b1.disjoint b2 := by
  refine ⟨_, _, _, _, rfl, rfl, by decide, by decide, by decide⟩

/-- C2 (amended): for every sequence of allocate and free calls respecting
the API (each requested size positive, no block freed twice, no block used
after being freed) in which no allocation wraps the 32-bit bump offset
(bump + size stays below 2^32), the byte ranges of any two distinct
concurrently-live blocks are disjoint, and every live block is disjoint from
every free-list entry. -/
theorem C2_allocation_disjointness (a : Alloc) (live : List MemoryBlockRef)
    (h : Legal a live) :
    live.Pairwise MemoryBlockRef.disjoint ∧
    ∀ b ∈ live, ∀ e ∈ a.freeList, b.disjoint e := by
  have hInv := legal_inv a live h
  have hd := hInv.disj
  rw [List.pairwise_append] at hd
  exact ⟨hd.1, hd.2.2⟩

/-- C2 witness: the amended disjointness theorem applied to the concrete
scenario of two allocations from a fresh 1024-byte arena. -/
theorem C2_allocation_disjointness_witness :
    ([w2.1, w1.1] : List MemoryBlockRef).Pairwise MemoryBlockRef.disjoint ∧
    ∀ b ∈ ([w2.1, w1.1] : List MemoryBlockRef), ∀ e ∈ w2.2.freeList, b.disjoint e :=
  C2_allocation_disjointness w2.2 [w2.1, w1.1] legal_w2

/-- C8: immediately after every successful free in an API-respecting
execution, the live free-block table entries are sorted by strictly
ascending offset and pairwise non-overlapping and non-adjacent (each entry's
offset + size is strictly below the next entry's offset), and the header's
free-block count equals the number of merged entries produced by the
coalescing pass. -/
theorem C8_free_table_separated (a a1 : Alloc) (live : List MemoryBlockRef)
    (b : MemoryBlockRef) (hL : Legal a live) (hb : b ∈ live)
    (he : a.free b = .ok a1) :
    a1.freeList.Pairwise (fun e f => e.offset < f.offset) ∧
    a1.freeList.Pairwise (fun e f => e.offset + e.size < f.offset) ∧
    a1.freeList = mergeBlocks (sortByOffset (a.freeList ++ [b])) ∧
    getUint32 a1.mem 4 = (mergeBlocks (sortByOffset (a.freeList ++ [b]))).length := by
  have hInv := legal_inv a live hL
  obtain ⟨hInv1, hfl, hc4, hsep⟩ := inv_free a a1 live b hInv hb he
  refine ⟨?_, hsep, hfl, hc4⟩
  refine hsep.imp_of_mem ?_
  intro e f hef hff hs
  have hpos := (hInv1.freeBounds e hef).1
  unfold sepLT at hs
  omega

/-- C8 witness: the theorem applied to the concrete scenario of freeing the
first of two allocated blocks. -/
theorem C8_free_table_separated_witness :
    w3.freeList.Pairwise (fun e f => e.offset < f.offset) ∧
    w3.freeList.Pairwise (fun e f => e.offset + e.size < f.offset) ∧
    w3.freeList = mergeBlocks (sortByOffset (w2.2.freeList ++ [w1.1])) ∧
    getUint32 w3.mem 4 = (mergeBlocks (sortByOffset (w2.2.freeList ++ [w1.1]))).length :=
  C8_free_table_separated w2.2 w3 [w2.1, w1.1] w1.1 legal_w2 (by decide) rfl

/-- C5: when the free-block count already equals (or exceeds) the configured
maximum, free fails with the capacity-exceeded condition.  The capacity check
is the first statement of free, before any write, so the error result carries
no successor state: the header counters, the free-block table and all other
arena bytes are untouched and the passed block is not recorded. -/
theorem C5_free_capacity_exceeded (a : Alloc) (b : MemoryBlockRef)
    (h : a.maxFreeBlocks ≤ getUint32 a.mem 4) :
    a.free b = .error "Free block list is full" :=
  free_full a b h

/-- C5 witness: an arena configured with free-list capacity 0 rejects the
very first free. -/
theorem C5_free_capacity_exceeded_witness :
    (Allocator.new 64 0).free ⟨20, 4⟩ = .error "Free block list is full" :=
  C5_free_capacity_exceeded (Allocator.new 64 0) ⟨20, 4⟩ (by decide)

/-- C6: when no free-list entry is suitable and the bump offset plus the
requested size exceeds the current arena byte length, the arena length is
doubled exactly once (the new length is exactly twice the old one, with no
retry loop) and the returned block's offset equals the pre-growth bump
offset. -/
theorem C6_growth_doubles_once (a : Alloc) (size : Nat)
    (hfind : findFreeBlock a.mem size (List.range (getUint32 a.mem 4)) = none)
    (hreg : getUint32 a.mem 8 = 0)
    (htable : 12 + a.maxFreeBlocks * 8 ≤ a.len)
    (hcnt : getUint32 a.mem 4 ≤ a.maxFreeBlocks)
    (hov : getUint32 a.mem 0 + size < 4294967296)
    (hgrow : a.len < getUint32 a.mem 0 + size) :
    ∃ a1, a.allocate size = .ok (⟨getUint32 a.mem 0, size⟩, a1) ∧ a1.len = a.len * 2 := by
  obtain ⟨a1, heq, _, _, _, _, _, himp2, _, _, _, _⟩ :=
    allocate_bump_spec a size hfind hreg htable hcnt hov
  exact ⟨a1, heq, himp2 hgrow⟩

/-- C6 witness: allocating 2048 bytes from a fresh 1024-byte arena doubles
its length to 2048 and returns the block at the pre-growth bump offset 812. -/
theorem C6_growth_doubles_once_witness :
    ∃ a1, (Allocator.new 1024 100).allocate 2048
        = .ok (⟨getUint32 (Allocator.new 1024 100).mem 0, 2048⟩, a1) ∧
      a1.len = (Allocator.new 1024 100).len * 2 :=
  C6_growth_doubles_once (Allocator.new 1024 100) 2048 (by decide) (by decide)
    (by decide) (by decide) (by decide) (by decide)

/-- C9: the internal growth operation exactly doubles the backing byte
length (so the arena never shrinks) and leaves every byte at an offset below
the old length unchanged: the old contents are copied verbatim and no
existing byte's logical offset changes. -/
theorem C9_growth_copies_verbatim (a a1 : Alloc) (h : a.expandBuffer = .ok a1) :
    a1.len = a.len * 2 ∧ a.len ≤ a1.len ∧ ∀ i, i < a.len → a1.mem i = a.mem i := by
  unfold Alloc.expandBuffer at h
  have heq := restoreLoop_ok _ _ _ h
  rw [heq]
  refine ⟨rfl, by dsimp only; omega, ?_⟩
  intro i hi
  show (if i < a.len then a.mem i else 0) = a.mem i
  rw [if_pos hi]

/-- C9 witness: growing a fresh 16-byte arena doubles its length to 32 and
preserves the header bytes. -/
theorem C9_growth_copies_verbatim_witness :
    (exOkA ((Allocator.new 16 0).expandBuffer) (Allocator.new 16 0)).len
        = (Allocator.new 16 0).len * 2
      ∧ (0 < (Allocator.new 16 0).len →
          (exOkA ((Allocator.new 16 0).expandBuffer) (Allocator.new 16 0)).mem 0
            = (Allocator.new 16 0).mem 0) := by
  have h := C9_growth_copies_verbatim (Allocator.new 16 0)
    (exOkA ((Allocator.new 16 0).expandBuffer) (Allocator.new 16 0)) rfl
  exact ⟨h.1, fun h0 => h.2.2 0 h0⟩

/-- C4: Allocator.fromBuffer on a byte buffer whose header records at least
one registered structure always fails, because the freshly constructed
allocator's in-memory structures map is empty, so the first registry entry's
id lookup fails; it succeeds when the recorded structure count is zero. -/
theorem C4_fromBuffer_fails_iff_structures (m : Mem) (len : Nat) :
    (1 ≤ getUint32 m 8 → ∃ msg, Allocator.fromBuffer m len = .error msg) ∧
    (getUint32 m 8 = 0 → ∃ a, Allocator.fromBuffer m len = .ok a) := by
  constructor
  · intro h
    obtain ⟨k, hk⟩ : ∃ k, getUint32 m 8 = k + 1 := ⟨getUint32 m 8 - 1, by omega⟩
    have hloop : ∀ A : Alloc, A.structures = [] → ∀ i rest,
        restoreLoop A (i :: rest)
          = .error ("Structure with ID "
              ++ toString (getUint32 A.mem (12 + A.maxFreeBlocks * 8 + i * 8))
              ++ " not found") := by
      intro A hA i rest
      simp only [restoreLoop, hA, List.find?_nil]
    have hmain : Allocator.fromBuffer m len
        = restoreLoop { Allocator.new len 100 with mem := m, len := len }
            (List.range (getUint32 m 8)) := rfl
    rw [hk, List.range_succ_eq_map] at hmain
    rw [hmain, hloop _ rfl 0 _]
    exact ⟨_, rfl⟩
  · intro h
    exact ⟨_, restoreStructures_of_zero
      { Allocator.new len 100 with mem := m, len := len } h⟩

/-- C4 witness: a buffer with structure count 1 fails to load; one with
structure count 0 loads. -/
theorem C4_fromBuffer_fails_iff_structures_witness :
    (∃ msg, Allocator.fromBuffer (setUint32 (Allocator.new 64 100).mem 8 1) 64
        = .error msg) ∧
    (∃ a, Allocator.fromBuffer (Allocator.new 64 100).mem 64 = .ok a) :=
  ⟨(C4_fromBuffer_fails_iff_structures (setUint32 (Allocator.new 64 100).mem 8 1) 64).1
      (by decide),
   (C4_fromBuffer_fails_iff_structures (Allocator.new 64 100).mem 64).2 (by decide)⟩

/-- C1: the spec's round-trip restore property is the intent (the repo's own
ResizableArray restore test asserts it), but the code records the wrong
offset: registerStructure captures the bump offset after the constructor's
allocation, i.e. the end of the array's block (828), not its start (812).
Restoring with getStructureOffset(id) on the same allocator therefore reads
length and capacity from untouched bytes: after pushing 42 and 84 into an
array of capacity 2, the original has length 2 and capacity 2 and holds both
values, while the restored array has length 0 and capacity 0 and rejects
every read. -/
theorem C1_restore_mismatch :
    c1p2.1.length = 2 ∧ c1p2.1.capacity = 2 ∧
    c1p2.1.get c1p2.2 0 = .ok 42 ∧ c1p2.1.get c1p2.2 1 = .ok 84 ∧
    c1p2.1.block.offset = 812 ∧
    c1p2.2.getStructureOffset c1p2.1.__ID = .ok 828 ∧
    c1restored.length = 0 ∧ c1restored.capacity = 0 ∧
    c1restored.get c1p2.2 0 = .error "Index out of bounds" ∧
    ¬ (c1restored.length = c1p2.1.length ∧ c1restored.capacity = c1p2.1.capacity) := by
  decide

theorem registerStructure_spec (a : Alloc)
    (hid32 : a.nextId < 4294967296) (hoff32 : getUint32 a.mem 0 < 4294967296) :
    (a.registerStructure).1 = a.nextId ∧
    getUint32 (a.registerStructure).2.mem
        (12 + a.maxFreeBlocks * 8 + getUint32 a.mem 8 * 8) = a.nextId ∧
    getUint32 (a.registerStructure).2.mem
        (12 + a.maxFreeBlocks * 8 + getUint32 a.mem 8 * 8 + 4) = getUint32 a.mem 0 := by
  refine ⟨rfl, ?_, ?_⟩
  · show getUint32 (setUint32 (setUint32 (setUint32 a.mem
        (12 + a.maxFreeBlocks * 8 + getUint32 a.mem 8 * 8) a.nextId)
        (12 + a.maxFreeBlocks * 8 + getUint32 a.mem 8 * 8 + 4) (getUint32 a.mem 0))
        8 (getUint32 a.mem 8 + 1)) (12 + a.maxFreeBlocks * 8 + getUint32 a.mem 8 * 8)
        = a.nextId
    rw [getUint32_setUint32_apart _ _ _ _ (by omega),
        getUint32_setUint32_apart _ _ _ _ (by omega),
        getUint32_setUint32_same, Nat.mod_eq_of_lt hid32]
  · show getUint32 (setUint32 (setUint32 (setUint32 a.mem
        (12 + a.maxFreeBlocks * 8 + getUint32 a.mem 8 * 8) a.nextId)
        (12 + a.maxFreeBlocks * 8 + getUint32 a.mem 8 * 8 + 4) (getUint32 a.mem 0))
        8 (getUint32 a.mem 8 + 1)) (12 + a.maxFreeBlocks * 8 + getUint32 a.mem 8 * 8 + 4)
        = getUint32 a.mem 0
    rw [getUint32_setUint32_apart _ _ _ _ (by omega),
        getUint32_setUint32_same, Nat.mod_eq_of_lt hoff32]

/-- C3: for an allocator with free-list capacity M, the structure registry
table begins at byte 12 + M*8, which equals the initial bump offset, so
registry entries occupy bytes that allocate also hands out.  Concretely, the
first allocation from a fresh arena returns a block at offset 12 + M*8, and
a following registerStructure call writes its 8-byte registry entry (id 0,
then the recorded offset, which is the current bump 12 + M*8 + size) over
the first bytes of that freshly allocated block. -/
theorem C3_registry_overlaps_data (s M size : Nat)
    (h32 : 12 + M * 8 + size < 4294967296) (hfit : 12 + M * 8 + size ≤ s)
    (hs : 0 < size) :
    getUint32 (Allocator.new s M).mem 0 = 12 + M * 8 ∧
    ∃ b a1, (Allocator.new s M).allocate size = .ok (b, a1) ∧
      b.offset = 12 + M * 8 ∧
      (a1.registerStructure).1 = 0 ∧
      getUint32 (a1.registerStructure).2.mem b.offset = 0 ∧
      getUint32 (a1.registerStructure).2.mem (b.offset + 4) = 12 + M * 8 + size := by
  have hmem : (Allocator.new s M).mem
      = setUint32 (setUint32 (setUint32 (fun _ => 0) 0 (12 + M * 8)) 4 0) 8 0 := rfl
  have hbump : getUint32 (Allocator.new s M).mem 0 = 12 + M * 8 := by
    rw [hmem, getUint32_setUint32_apart _ _ _ _ (by omega),
        getUint32_setUint32_apart _ _ _ _ (by omega),
        getUint32_setUint32_same, Nat.mod_eq_of_lt (by omega)]
  have hc4 : getUint32 (Allocator.new s M).mem 4 = 0 := by
    rw [hmem, getUint32_setUint32_apart _ _ _ _ (by omega), getUint32_setUint32_same]
  have hc8 : getUint32 (Allocator.new s M).mem 8 = 0 := by
    rw [hmem, getUint32_setUint32_same]
  have hfind : findFreeBlock (Allocator.new s M).mem size
      (List.range (getUint32 (Allocator.new s M).mem 4)) = none := by
    rw [hc4]
    rfl
  obtain ⟨a1, heq, hb0, hb4, hb8, hbfl, himp1, himp2, hlenle, hbmax, hbstr, hbnid, hbbytes⟩ :=
    allocate_bump_spec (Allocator.new s M) size hfind hc8
      (by show 12 + M * 8 ≤ s; omega) (by rw [hc4]; omega) (by rw [hbump]; omega)
  refine ⟨hbump, ⟨getUint32 (Allocator.new s M).mem 0, size⟩, a1, heq, ?_, ?_, ?_, ?_⟩
  · show getUint32 (Allocator.new s M).mem 0 = 12 + M * 8
    exact hbump
  · obtain ⟨hid, _, _⟩ := registerStructure_spec a1 (by rw [hbnid]; show 0 < 4294967296; omega)
      (getUint32_lt a1.mem (hbbytes (byteStore_new s M)) 0)
    rw [hid, hbnid]
    rfl
  · obtain ⟨_, hwid, _⟩ := registerStructure_spec a1 (by rw [hbnid]; show 0 < 4294967296; omega)
      (getUint32_lt a1.mem (hbbytes (byteStore_new s M)) 0)
    rw [hbmax, hb8] at hwid
    rw [show (Allocator.new s M).maxFreeBlocks = M from rfl] at hwid
    simp only [Nat.zero_mul, Nat.add_zero] at hwid
    rw [hbnid] at hwid
    show getUint32 (a1.registerStructure).2.mem (getUint32 (Allocator.new s M).mem 0) = 0
    rw [hbump]
    rw [hwid]
    rfl
  · obtain ⟨_, _, hwoff⟩ := registerStructure_spec a1 (by rw [hbnid]; show 0 < 4294967296; omega)
      (getUint32_lt a1.mem (hbbytes (byteStore_new s M)) 0)
    rw [hbmax, hb8] at hwoff
    rw [show (Allocator.new s M).maxFreeBlocks = M from rfl] at hwoff
    simp only [Nat.zero_mul, Nat.add_zero] at hwoff
    rw [hb0, hbump] at hwoff
    show getUint32 (a1.registerStructure).2.mem (getUint32 (Allocator.new s M).mem 0 + 4)
        = 12 + M * 8 + size
    rw [hbump]
    exact hwoff

/-- C3 witness: the theorem at a fresh 1024-byte arena with capacity 100 and
a 16-byte allocation: the registry base 812 equals the initial bump offset
and the registry entry lands inside the allocated block. -/
theorem C3_registry_overlaps_data_witness :
    getUint32 (Allocator.new 1024 100).mem 0 = 12 + 100 * 8 ∧
    ∃ b a1, (Allocator.new 1024 100).allocate 16 = .ok (b, a1) ∧
      b.offset = 12 + 100 * 8 ∧
      (a1.registerStructure).1 = 0 ∧
      getUint32 (a1.registerStructure).2.mem b.offset = 0 ∧
      getUint32 (a1.registerStructure).2.mem (b.offset + 4) = 12 + 100 * 8 + 16 :=
  C3_registry_overlaps_data 1024 100 16 (by decide) (by decide) (by decide)

theorem freeList_fields_lt (a : Alloc) (hst : ByteStore a.mem) :
    ∀ f ∈ a.freeList, f.offset < 4294967296 ∧ f.size < 4294967296 := by
  intro f hf
  simp only [Alloc.freeList, readBlocks, List.mem_map] at hf
  obtain ⟨i, _, hfi⟩ := hf
  rw [← hfi]
  exact ⟨getUint32_lt a.mem hst _, getUint32_lt a.mem hst _⟩

/-- C10: free performs no validation of its argument.  Whenever the
free-block count is below the configured maximum, the call succeeds for an
arbitrary offset and size pair, even one never returned by allocate,
overlapping a live block, or already present in the free list (double-free
is not detected), and the whole byte range of the passed block is covered by
the resulting free list (overlapping entries having been merged by summing
their sizes during coalescing). -/
theorem C10_free_no_validation (a : Alloc) (b : MemoryBlockRef)
    (hbytes : ByteStore a.mem)
    (hcnt : getUint32 a.mem 4 < a.maxFreeBlocks)
    (hmax : a.maxFreeBlocks < 4294967296)
    (hb32 : b.offset + b.size < 4294967296)
    (hsum : ((a.freeList).map MemoryBlockRef.size).sum + b.size < 4294967296) :
    ∃ a1, a.free b = .ok a1 ∧
      ∀ x, b.offset ≤ x → x < b.offset + b.size → covers a1.freeList x := by
  have hperm : (sortByOffset (a.freeList ++ [b])).Perm (a.freeList ++ [b]) :=
    sortByOffset_perm _
  have hsum_sorted : ((sortByOffset (a.freeList ++ [b])).map MemoryBlockRef.size).sum
      = ((a.freeList).map MemoryBlockRef.size).sum + b.size := by
    rw [(hperm.map MemoryBlockRef.size).sum_eq]
    simp
  have hfields : ∀ e ∈ mergeBlocks (sortByOffset (a.freeList ++ [b])),
      e.offset < 4294967296 ∧ e.size < 4294967296 := by
    intro e he
    constructor
    · obtain ⟨f, hf, hfo⟩ := mergeBlocks_offset_mem _ e he
      rw [hfo]
      rcases List.mem_append.mp (hperm.mem_iff.mp hf) with h | h
      · exact (freeList_fields_lt a hbytes f h).1
      · simp at h
        subst h
        omega
    · have := mergeBlocks_size_le_sum _ e he
      omega
  obtain ⟨a1, heq, hfl, _, _, _, _, _, _, _, _⟩ :=
    free_spec a b hcnt hmax (by omega) (by omega) hfields
  refine ⟨a1, heq, ?_⟩
  intro x hx1 hx2
  rw [hfl]
  apply mergeBlocks_covers_mono _ (sortByOffset_sorted _)
  rw [covers_perm _ _ hperm]
  exact ⟨b, by simp, hx1, hx2⟩

/-- C10 witness: freeing the same block twice.  In the concrete scenario the
block at offset 812 with size 100 is freed a second time; the call succeeds
and the (now doubly-counted) range is still covered by the free list. -/
theorem C10_free_no_validation_witness :
    ∃ a1, w3.free w1.1 = .ok a1 ∧
      ∀ x, (w1.1).offset ≤ x → x < (w1.1).offset + (w1.1).size → covers a1.freeList x :=
  C10_free_no_validation w3 w1.1 (legal_inv _ _ legal_w3).bytes (by decide) (by decide)
    (by decide) (by decide)

theorem sortPair (x y : MemoryBlockRef) (h : x.offset < y.offset) :
    sortByOffset [x, y] = [x, y] := by
  have hperm := sortByOffset_perm [x, y]
  have hsorted := sortByOffset_sorted [x, y]
  have hlen : (sortByOffset [x, y]).length = 2 := by
    rw [hperm.length_eq]
    rfl
  obtain ⟨c, d, hcd⟩ := List.length_eq_two.mp hlen
  rw [hcd] at hperm hsorted ⊢
  have hxmem : x ∈ [c, d] := hperm.mem_iff.mpr (by simp)
  have hymem : y ∈ [c, d] := hperm.mem_iff.mpr (by simp)
  have hxy : x ≠ y := by
    intro hcon
    rw [hcon] at h
    omega
  have hle : blockLE c d := (List.pairwise_cons.mp hsorted).1 d (by simp)
  simp only [List.mem_cons, List.mem_singleton, List.not_mem_nil, or_false] at hxmem hymem
  rcases hxmem with hx | hx <;> rcases hymem with hy | hy
  · exact absurd (hx.trans hy.symm) hxy
  · rw [hx, hy]
  · exfalso
    rw [← hy, ← hx] at hle
    unfold blockLE at hle
    omega
  · exact absurd (hx.trans hy.symm) hxy

/-- C7: starting from an empty free list, freeing two byte-adjacent blocks
(the first block's offset + size equals the second block's offset) and then
calling allocate with the sum of the two sizes returns a block whose offset
equals the first block's offset: the coalescing pass merged the two entries
into one, and the allocation consumes it exactly. -/
theorem C7_coalesce_adjacent_reuse (a : Alloc) (b1 b2 : MemoryBlockRef)
    (hstore : ByteStore a.mem)
    (hcnt : getUint32 a.mem 4 = 0) (hmax : 2 ≤ a.maxFreeBlocks)
    (hmax32 : a.maxFreeBlocks < 4294967296)
    (hadj : b1.offset + b1.size = b2.offset) (hs1 : 0 < b1.size)
    (hfit : b2.offset + b2.size < 4294967296) :
    ∃ a1 a2 out, a.free b1 = .ok a1 ∧ a1.free b2 = .ok a2 ∧
      a2.allocate (b1.size + b2.size) = .ok out ∧
      out.1.offset = b1.offset ∧ out.1.size = b1.size + b2.size := by
  have hfl0 : a.freeList = [] := by
    show readBlocks a.mem (getUint32 a.mem 4) = []
    rw [hcnt]
    rfl
  have hsort1 : sortByOffset ([] ++ [b1]) = [b1] :=
    List.perm_singleton.mp (sortByOffset_perm _)
  have hmerge1 : mergeBlocks (sortByOffset ([] ++ [b1])) = [b1] := by
    rw [hsort1]
    rfl
  have hfields1 : ∀ e ∈ mergeBlocks (sortByOffset (a.freeList ++ [b1])),
      e.offset < 4294967296 ∧ e.size < 4294967296 := by
    rw [hfl0, hmerge1]
    intro e he
    simp at he
    subst he
    constructor <;> omega
  obtain ⟨a1, heq1, hfl1, hc41, hc01, hc81, hlen1, hmaxf1, hstr1, hnid1, hbytes1⟩ :=
    free_spec a b1 (by omega) hmax32 (by omega) (by omega) hfields1
  rw [hfl0, hmerge1] at hfl1
  rw [hfl0, hmerge1] at hc41
  have hc41e : getUint32 a1.mem 4 = 1 := hc41
  -- second free
  have hsort2 : sortByOffset ([b1] ++ [b2]) = [b1, b2] := by
    apply sortPair
    omega
  have hmerge2 : mergeBlocks (sortByOffset ([b1] ++ [b2]))
      = [⟨b1.offset, b1.size + b2.size⟩] := by
    rw [hsort2]
    show mergeInto b1 [b2] = _
    unfold mergeInto
    rw [if_neg (by omega)]
    rfl
  have hfields2 : ∀ e ∈ mergeBlocks (sortByOffset (a1.freeList ++ [b2])),
      e.offset < 4294967296 ∧ e.size < 4294967296 := by
    rw [hfl1, hmerge2]
    intro e he
    simp at he
    subst he
    constructor
    · show b1.offset < 4294967296
      omega
    · show b1.size + b2.size < 4294967296
      omega
  obtain ⟨a2, heq2, hfl2, hc42, hc02, hc82, hlen2, hmaxf2, hstr2, hnid2, hbytes2⟩ :=
    free_spec a1 b2 (by rw [hc41e, hmaxf1]; omega) (by rw [hmaxf1]; exact hmax32)
      (by omega) (by omega) hfields2
  rw [hfl1, hmerge2] at hfl2
  rw [hfl1, hmerge2] at hc42
  have hc42e : getUint32 a2.mem 4 = 1 := hc42
  -- the merged entry sits in slot 0
  have hrb : readBlocks a2.mem 1 = [⟨b1.offset, b1.size + b2.size⟩] := by
    rw [← hc42e]
    exact hfl2
  have hslot : getUint32 a2.mem (12 + 0 * 8) = b1.offset
      ∧ getUint32 a2.mem (12 + 0 * 8 + 4) = b1.size + b2.size := by
    have h1 : readBlocks a2.mem 1
        = [⟨getUint32 a2.mem (12 + 0 * 8), getUint32 a2.mem (12 + 0 * 8 + 4)⟩] := rfl
    rw [h1] at hrb
    simp only [List.cons.injEq, MemoryBlockRef.mk.injEq, and_true] at hrb
    exact hrb
  have hfind : findFreeBlock a2.mem (b1.size + b2.size)
      (List.range (getUint32 a2.mem 4)) = some (0, b1.offset, b1.size + b2.size) := by
    rw [hc42e]
    show (if b1.size + b2.size ≤ getUint32 a2.mem (12 + 0 * 8 + 4) then
        some (0, getUint32 a2.mem (12 + 0 * 8), getUint32 a2.mem (12 + 0 * 8 + 4))
      else findFreeBlock a2.mem (b1.size + b2.size) []) = _
    rw [hslot.1, hslot.2, if_pos (by omega)]
  obtain ⟨a3, heq3, _, _, _, _, _, _, _, _⟩ :=
    allocate_exact_spec a2 (b1.size + b2.size) 0 b1.offset (b1.size + b2.size) hfind
      (Nat.le_refl _) (hbytes2 (hbytes1 hstore))
  exact ⟨a1, a2, (⟨b1.offset, b1.size + b2.size⟩, a3), heq1, heq2, heq3, rfl, rfl⟩

theorem C7_coalesce_adjacent_reuse_witness :
    ∃ a1 a2 out,
      (Allocator.new 1024 100).free ⟨812, 100⟩ = .ok a1 ∧
      a1.free ⟨912, 100⟩ = .ok a2 ∧
      a2.allocate (100 + 100) = .ok out ∧
      out.1.offset = (812 : Nat) ∧ out.1.size = (100 + 100 : Nat) :=
  C7_coalesce_adjacent_reuse (Allocator.new 1024 100) ⟨812, 100⟩ ⟨912, 100⟩
    (byteStore_new 1024 100) (by decide) (by decide) (by decide) (by decide)
    (by decide) (by decide)
